import Mathlib

/-!
# Memory arena (day5/memory_arena_lesson/arena/arena.go)

The definitions of the three lessons come first (the arena, the processors of
day3/gc_hidden_cost, the buffer pool handlers of day4/syncpool-lesson), followed by
the theorems about each of them.

A shallow embedding of the typed bump-pointer arena and of the two
header-reinterpretation helpers.  Go's `int` is a 64-bit signed integer and
`uintptr` a 64-bit unsigned one; both are embedded as `Int` / `Nat` with the
wrap-around written out.  An element type `T` enters only through
`unsafe.Sizeof` and `unsafe.Alignof`, so it is represented by these two numbers.
-/

namespace ArenaLesson

/-! ## Machine arithmetic -/

/-- Number of values of a 64-bit word. -/
def wordSize : Nat := 2 ^ 64

/-- Addition on `uintptr`. -/
def uintptrAdd (x y : Nat) : Nat := (x + y) % wordSize

/-- Subtraction on `uintptr`. -/
def uintptrSub (x y : Nat) : Nat := (x + wordSize - y % wordSize) % wordSize

/-- Multiplication on `uintptr`. -/
def uintptrMul (x y : Nat) : Nat := (x * y) % wordSize

/-- Bitwise complement on `uintptr`, the unary `^y` of Go. -/
def uintptrNot (y : Nat) : Nat := (wordSize - 1) ^^^ (y % wordSize)

/-- Bit clear on `uintptr`, the `x &^ y` of Go. -/
def uintptrAndNot (x y : Nat) : Nat := x &&& uintptrNot y

/-- Conversion `uintptr(i)` of an `int`. -/
def intToUintptr (i : Int) : Nat := (i % (wordSize : Int)).toNat

/-- Result of an `int` computation, wrapped to 64-bit two's complement. -/
def intWrap (i : Int) : Int := (i + 2 ^ 63) % 2 ^ 64 - 2 ^ 63

/-- The largest length in bytes that `make` accepts: `maxAlloc` of the Go run time, which
is 2^48 on the 64-bit platforms with 48 address bits (such as linux/amd64); for a longer
slice `make` panics with "len out of range". -/
def maxAlloc : Nat := 2 ^ 48

/-- Values of Go's `int`. -/
def IsInt (i : Int) : Prop := -(2 ^ 63) ≤ i ∧ i < 2 ^ 63

instance (i : Int) : Decidable (IsInt i) := by
  unfold IsInt; infer_instance

/-! ## Results -/

/-- The two errors made with `fmt.Errorf` in arena.go. -/
inductive ArenaError where
  /-- "capacity must be positive" -/
  | capacityMustBePositive
  /-- "arena capacity exceeded" -/
  | capacityExceeded
  deriving DecidableEq, Repr

/-- Run-time panics of the Go operations used in arena.go. -/
inductive RuntimePanic where
  /-- `make` with a length above `maxAlloc` -/
  | lenOutOfRange
  /-- indexing a slice outside its length -/
  | indexOutOfRange
  /-- integer division or remainder by zero -/
  | divideByZero
  deriving DecidableEq, Repr

/-- How a call ends: with a value, with a returned error (and a nil value),
or with a run-time panic. -/
inductive Outcome (α : Type) where
  | ok (v : α)
  | error (e : ArenaError)
  | panic (p : RuntimePanic)
  deriving DecidableEq, Repr

/-! ## The arena -/

/-- The struct `Arena[T]`, field for field; pointers are addresses. -/
structure Arena where
  basePtr : Nat
  capacity : Int
  offset : Int
  elementSize : Nat
  elementAlign : Nat
  deriving DecidableEq, Repr

namespace Arena

/-- Every field holds a value of its Go type. -/
def InRange (a : Arena) : Prop :=
  a.basePtr < wordSize ∧ IsInt a.capacity ∧ IsInt a.offset ∧
    a.elementSize < wordSize ∧ a.elementAlign < wordSize

instance (a : Arena) : Decidable a.InRange := by
  unfold InRange; infer_instance

end Arena

/-- `NewArena[T](capacity)`.  `elementSize` and `elementAlign` are
`unsafe.Sizeof(zeroT)` and `unsafe.Alignof(zeroT)`; `rawBase` is the address
`&rawBytes[0]` of the block that `make` returned; `make` panics for a length above
`maxAlloc` (memory exhaustion below that length is not modelled). -/
def NewArena (elementSize elementAlign rawBase : Nat) (capacity : Int) : Outcome Arena :=
  if capacity ≤ 0 then
    .error .capacityMustBePositive
  else
    let totalBytes :=
      uintptrSub (uintptrAdd (uintptrMul (intToUintptr capacity) elementSize) elementAlign) 1
    if maxAlloc < totalBytes then
      .panic .lenOutOfRange
    else if totalBytes = 0 then
      .panic .indexOutOfRange
    else
      let alignedBasePtr :=
        uintptrAndNot (uintptrSub (uintptrAdd rawBase elementAlign) 1) (uintptrSub elementAlign 1)
      .ok { basePtr := alignedBasePtr
            capacity := capacity
            offset := 0
            elementSize := elementSize
            elementAlign := elementAlign }

namespace Arena

/-- `(a *Arena[T]) Alloc()`: the returned pointer or error, and the arena afterwards. -/
def Alloc (a : Arena) : Outcome Nat × Arena :=
  if a.offset ≥ a.capacity then
    (.error .capacityExceeded, a)
  else
    let elementPtr := uintptrAdd a.basePtr (uintptrMul (intToUintptr a.offset) a.elementSize)
    (.ok elementPtr, { a with offset := intWrap (a.offset + 1) })

/-- `(a *Arena[T]) Reset()`. -/
def Reset (a : Arena) : Arena := { a with offset := 0 }

/-- `(a *Arena[T]) CurrentUsage()`. -/
def CurrentUsage (a : Arena) : Int := a.offset

/-- `(a *Arena[T]) GetCapacity()`. -/
def GetCapacity (a : Arena) : Int := a.capacity

/-- `(a *Arena[T]) Validate(ptr)`.  The conjunction is evaluated left to right
and stops at the first false operand; the remainder panics on a zero divisor. -/
def Validate (a : Arena) (ptr : Nat) : Outcome Bool :=
  let p := ptr
  let start := a.basePtr
  let stop := uintptrAdd start (uintptrMul (intToUintptr a.capacity) a.elementSize)
  if p ≥ start then
    if p < stop then
      if a.elementSize = 0 then .panic .divideByZero
      else .ok (decide (uintptrSub p start % a.elementSize = 0))
    else .ok false
  else .ok false

/-- The data-model invariant `0 ≤ offset ≤ capacity`. -/
def OffsetInBounds (a : Arena) : Prop := 0 ≤ a.offset ∧ a.offset ≤ a.capacity

instance (a : Arena) : Decidable a.OffsetInBounds := by
  unfold OffsetInBounds; infer_instance

/-- The state after `n` consecutive calls of `Alloc`. -/
def allocTimes (n : Nat) (a : Arena) : Arena := (fun s => (Alloc s).2)^[n] a

/-- The calls a client can make on an arena. -/
inductive Op where
  | alloc
  | reset
  | currentUsage
  | getCapacity
  | validate (ptr : Nat)
  deriving DecidableEq, Repr

/-- The arena after one call; the three read-only methods assign no field. -/
def step (a : Arena) : Op → Arena
  | .alloc => (Alloc a).2
  | .reset => Reset a
  | .currentUsage => a
  | .getCapacity => a
  | .validate _ => a

/-- The arena after a sequence of calls, first call first. -/
def run (a : Arena) (ops : List Op) : Arena := ops.foldl step a

end Arena

/-- The length `totalBytes` of the block that `NewArena` asks `make` for. -/
def totalBytes (elementSize elementAlign : Nat) (capacity : Int) : Nat :=
  uintptrSub (uintptrAdd (uintptrMul (intToUintptr capacity) elementSize) elementAlign) 1

namespace Arena

/-- The pointer that `Alloc` computes when `offset` is `i`. -/
def slotPtr (a : Arena) (i : Nat) : Nat :=
  uintptrAdd a.basePtr (uintptrMul (intToUintptr (i : Int)) a.elementSize)

/-- A call sequence run from `a`, together with the pointers that the successful calls
of `Alloc` returned since construction or since the latest `Reset`, oldest first;
`live` holds the pointers recorded so far. -/
def trace (a : Arena) (live : List Nat) : List Op → Arena × List Nat
  | [] => (a, live)
  | .alloc :: rest =>
    match a.Alloc with
    | (.ok p, a') => trace a' (live ++ [p]) rest
    | (.error _, a') => trace a' live rest
    | (.panic _, a') => trace a' live rest
  | .reset :: rest => trace a.Reset [] rest
  | .currentUsage :: rest => trace a live rest
  | .getCapacity :: rest => trace a live rest
  | .validate _ :: rest => trace a live rest

end Arena

/-! ## Memory and the reinterpretation helpers -/

/-- The contents of the address space, byte by byte. -/
abbrev Memory := Nat → UInt8

/-- The `length` bytes stored from address `data` on. -/
def bytesAt (mem : Memory) (data length : Nat) : List UInt8 :=
  (List.range length).map fun j => mem (uintptrAdd data j)

/-- The bytes of slot `i` of the arena: the `elementSize` bytes that the pointer
`unsafe.Add(basePtr, uintptr(i) * elementSize)` of `Alloc` refers to. -/
def Arena.slotBytes (mem : Memory) (a : Arena) (i : Int) : List UInt8 :=
  bytesAt mem (uintptrAdd a.basePtr (uintptrMul (intToUintptr i) a.elementSize)) a.elementSize

/-- The header of a `[]byte`, `reflect.SliceHeader`. -/
structure SliceHeader where
  Data : Nat
  Len : Int
  Cap : Int
  deriving DecidableEq, Repr

/-- The header of a `string`, `reflect.StringHeader`. -/
structure StringHeader where
  Data : Nat
  Len : Int
  deriving DecidableEq, Repr

/-- `BytesToString(b)`: the first two words of the slice header, read as a string header. -/
def BytesToString (b : SliceHeader) : StringHeader :=
  { Data := b.Data, Len := b.Len }

/-- `StringToBytes(s)`: a slice header over the data of `s`, with `Cap` set to `Len`. -/
def StringToBytes (s : StringHeader) : SliceHeader :=
  { Data := s.Data, Len := s.Len, Cap := s.Len }

/-- The bytes a `[]byte` holds. -/
def SliceHeader.bytes (mem : Memory) (b : SliceHeader) : List UInt8 :=
  bytesAt mem b.Data b.Len.toNat

/-- The bytes a `string` holds. -/
def StringHeader.bytes (mem : Memory) (s : StringHeader) : List UInt8 :=
  bytesAt mem s.Data s.Len.toNat

end ArenaLesson

/-!
# Naive and pooled processors (day3/gc_hidden_cost)

`processor.go` and the request handler of `main.go`.  A `[]byte` is its backing array
together with its length; `make` panics for a negative length and for a length above
`maxAlloc` (memory exhaustion below that length is not modelled).  What `sync.Pool.Get` hands back is an argument of
`Process`, what `Put` receives is part of its result.
-/

namespace GcHiddenCost

/-- Run-time panics of the slice operations used in processor.go. -/
inductive Panic where
  /-- `make` with a negative length or a length above `maxAlloc` -/
  | lenOutOfRange
  /-- `buf[:n]` with `n` outside `0 ..= cap(buf)` -/
  | sliceBoundsOutOfRange
  /-- `buf[i]` with `i` outside `0 .. len(buf)` -/
  | indexOutOfRange
  deriving DecidableEq, Repr

/-- How `Process` ends: with a message and a nil error, with an error and an empty
message, or with a run-time panic. -/
inductive Result where
  | ok (message : String)
  | error (err : String)
  | panic (p : Panic)
  deriving DecidableEq, Repr

/-- A `[]byte`: the backing array from the first element of the slice on, whose length
is the capacity, and the length of the slice. -/
structure ByteSlice where
  array : List UInt8
  len : Nat
  deriving DecidableEq, Repr

namespace ByteSlice

/-- The built-in `cap(buf)`. -/
def cap (b : ByteSlice) : Nat := b.array.length

/-- The built-in `make([]byte, n)`; `none` is the panic "len out of range" for a
negative length and for a length above `maxAlloc`. -/
def make (n : Int) : Option ByteSlice :=
  if n < 0 ∨ (ArenaLesson.maxAlloc : Int) < n then none
  else some { array := List.replicate n.toNat 0, len := n.toNat }

/-- The built-in `make([]byte, 0, c)` for a constant capacity `c`. -/
def makeEmpty (c : Nat) : ByteSlice := { array := List.replicate c 0, len := 0 }

/-- The slice expression `buf[:n]`; `none` is the panic for `n` outside `0 ..= cap(buf)`. -/
def upTo (b : ByteSlice) (n : Int) : Option ByteSlice :=
  if 0 ≤ n ∧ n ≤ (b.cap : Int) then some { b with len := n.toNat } else none

/-- The assignment `buf[i] = v`; `none` is the panic for `i` outside `0 .. len(buf)`. -/
def set (b : ByteSlice) (i : Nat) (v : UInt8) : Option ByteSlice :=
  if i < b.len then some { b with array := b.array.set i v } else none

end ByteSlice

/-- The loop `for i := 0; i < size; i++ { buf[i] = byte(i % 256) }`; `none` when an
index is out of range. -/
def dummyWrite (buf : ByteSlice) (size : Int) : Option ByteSlice :=
  (List.range size.toNat).foldlM (fun b i => b.set i (UInt8.ofNat (i % 256))) buf

/-- `(p *NaiveProcessor) Process(size)`. -/
def NaiveProcessor.Process (size : Int) : Result :=
  match ByteSlice.make size with
  | none => .panic .lenOutOfRange
  | some buf =>
    match dummyWrite buf size with
    | none => .panic .indexOutOfRange
    | some _ => .ok ("Naive: Processed " ++ toString size ++ " bytes")

/-- A value stored in the `sync.Pool`, of type `interface{}`: a `[]byte` or anything else. -/
inductive PoolItem where
  | bytes (b : ByteSlice)
  | other
  deriving DecidableEq, Repr

/-- The `New` function of the pool of `NewPooledProcessor`. -/
def PooledProcessor.New : PoolItem := .bytes (ByteSlice.makeEmpty 4096)

/-- The second half of `(p *PooledProcessor) Process`: the write loop, `Put(buf[:0])` and
the returned message.  The second component is what is put back into the pool. -/
def PooledProcessor.writeAndPut (buf : ByteSlice) (size : Int) : Result × Option ByteSlice :=
  match dummyWrite buf size with
  | none => (.panic .indexOutOfRange, none)
  | some written =>
    match written.upTo 0 with
    | none => (.panic .sliceBoundsOutOfRange, none)
    | some emptied => (.ok ("Pooled: Processed " ++ toString size ++ " bytes"), some emptied)

/-- `(p *PooledProcessor) Process(size)`, where `bufIface` is what `p.pool.Get()`
returned. -/
def PooledProcessor.Process (bufIface : PoolItem) (size : Int) : Result × Option ByteSlice :=
  match bufIface with
  | .other => (.error "failed to assert type from sync.Pool", none)
  | .bytes buf =>
    if (buf.cap : Int) < size then
      match ByteSlice.make size with
      | none => (.panic .lenOutOfRange, none)
      | some fresh => PooledProcessor.writeAndPut fresh size
    else
      match buf.upTo size with
      | none => (.panic .sliceBoundsOutOfRange, none)
      | some resliced => PooledProcessor.writeAndPut resliced size

/-! ## The request handler -/

/-- The query of a request, `url.Values`: keys with their lists of values. -/
structure Values where
  entries : List (String × List String)
  deriving Repr

/-- `url.Values.Get` of the standard library: the first value of the key, or the empty
string when there is none. -/
def Values.Get (v : Values) (key : String) : String :=
  match v.entries.lookup key with
  | some (first :: _) => first
  | _ => ""

/-- The digit loop of `strconv.Atoi`: `n = n*10 + digit`, with a syntax error (`none`)
at the first byte that is not an ASCII digit. -/
def parseDigits : List Char → Nat → Option Nat
  | [], n => some n
  | c :: cs, n => if c.isDigit then parseDigits cs (n * 10 + (c.toNat - 48)) else none

/-- `strconv.Atoi` of the standard library, after its documentation and source: an
optional sign, then one or more decimal digits, with a value that fits `int`; `none`
stands for a returned error (syntax or range). -/
def Atoi (s : String) : Option Int :=
  match s.toList with
  | [] => none
  | c :: cs =>
    let digits := if c = '-' ∨ c = '+' then cs else c :: cs
    if digits = [] then none
    else
      match parseDigits digits 0 with
      | none => none
      | some n =>
        let v : Int := if c = '-' then -(n : Int) else (n : Int)
        if v < -(2 ^ 63) ∨ 2 ^ 63 ≤ v then none else some v

/-- What the handler leaves behind: an `http.Error` with its status code, the JSON
answer with status 200 carrying the message of `Process`, or nothing when `Process`
panicked. -/
inductive Response where
  | error (code : Nat) (msg : String)
  | json (message : String)
  | aborted (p : Panic)
  deriving DecidableEq, Repr

/-- The HTTP status code of a response. -/
def Response.status : Response → Option Nat
  | .error code _ => some code
  | .json _ => some 200
  | .aborted _ => none

/-- A handled request: the response, and the sizes `Process` was called with. -/
structure Handled where
  response : Response
  processCalls : List Int
  deriving DecidableEq, Repr

/-- The handler that `handleProcessWithStats(p, recordStats)` returns, for `/naive` and
`/pooled`; `process` is `p.Process`. -/
def handleProcessWithStats (process : Int → Result) (query : Values) : Handled :=
  let sizeStr := query.Get "size"
  if sizeStr = "" then
    { response := .error 400 "missing \x27size\x27 parameter", processCalls := [] }
  else
    match Atoi sizeStr with
    | none => { response := .error 400 "invalid \x27size\x27 parameter", processCalls := [] }
    | some size =>
      if size ≤ 0 then
        { response := .error 400 "invalid \x27size\x27 parameter", processCalls := [] }
      else
        match process size with
        | .error err =>
          { response := .error 500 ("processing error: " ++ err), processCalls := [size] }
        | .panic p => { response := .aborted p, processCalls := [size] }
        | .ok result => { response := .json result, processCalls := [size] }

/-! ## The words of the claim about the handler -/

/-- The digits of a numeral, after an optional sign. -/
def unsignedPart (s : String) : List Char :=
  match s.toList with
  | [] => []
  | c :: cs => if c = '-' ∨ c = '+' then cs else c :: cs

/-- A decimal integer: an optional sign followed by one or more decimal digits. -/
def IsDecimalInteger (s : String) : Prop :=
  unsignedPart s ≠ [] ∧ ∀ c ∈ unsignedPart s, c.isDigit = true

instance (s : String) : Decidable (IsDecimalInteger s) := by
  unfold IsDecimalInteger; infer_instance

/-- The number that a string of decimal digits denotes. -/
def digitsValue (ds : List Char) : Nat :=
  ds.foldl (fun n c => n * 10 + (c.toNat - 48)) 0

/-- The integer that a decimal numeral denotes. -/
def decimalValue (s : String) : Int :=
  if s.toList.head? = some '-' then -(digitsValue (unsignedPart s) : Int)
  else (digitsValue (unsignedPart s) : Int)

end GcHiddenCost

/-!
# Buffer pool handlers (day4/syncpool-lesson)

`buggyHandler` and `fixedHandler` of `main.go`.  Go strings and byte slices are lists
of bytes; a `bytes.Buffer` is its unread contents.  The buffer that `bufferPool.Get()`
hands back is an argument of a handler, the buffer it passes to `bufferPool.Put` is
part of its result; `now` is the value of `time.Now().UnixNano()`.
-/

namespace SyncPoolLesson

/-- The bytes of a string of ASCII characters. -/
def bytesOfASCII (s : String) : List UInt8 := s.toList.map fun c => UInt8.ofNat c.toNat

/-- A `bytes.Buffer` of the standard library that is only written to: its contents. -/
structure Buffer where
  contents : List UInt8
  deriving DecidableEq, Repr

/-- `(*bytes.Buffer).Write`. -/
def Buffer.Write (b : Buffer) (p : List UInt8) : Buffer := { contents := b.contents ++ p }

/-- `(*bytes.Buffer).WriteString`. -/
def Buffer.WriteString (b : Buffer) (s : List UInt8) : Buffer :=
  { contents := b.contents ++ s }

/-- `(*bytes.Buffer).Len`. -/
def Buffer.Len (b : Buffer) : Nat := b.contents.length

/-- `(*bytes.Buffer).Reset`. -/
def Buffer.Reset (_b : Buffer) : Buffer := { contents := [] }

/-- `(*bytes.Buffer).String`. -/
def Buffer.String (b : Buffer) : List UInt8 := b.contents

/-- The `New` function of `bufferPool`: `bytes.NewBuffer(make([]byte, 0, 1024))`. -/
def bufferPoolNew : Buffer := { contents := [] }

/-- `fmt.Sprintf("REQ-%d", time.Now().UnixNano()%100000)`; `%` truncates towards zero. -/
def requestID (now : Int) : List UInt8 :=
  bytesOfASCII ("REQ-" ++ toString (Int.tmod now 100000))

/-- `fmt.Sprintf(" [Processed by %s]", requestID)`. -/
def processedBy (now : Int) : List UInt8 :=
  bytesOfASCII " [Processed by " ++ requestID now ++ bytesOfASCII "]"

/-- A handled request: status code and body of the response, and the buffer that the
deferred function passed to `bufferPool.Put`. -/
structure Handled where
  status : Nat
  body : List UInt8
  put : Buffer
  deriving DecidableEq, Repr

/-- `buggyHandler`; `body` is the result of `io.ReadAll(r.Body)`, `none` for an error. -/
def buggyHandler (now : Int) (body : Option (List UInt8)) (buf : Buffer) : Handled :=
  match body with
  | none => { status := 500, body := bytesOfASCII "Failed to read body\n", put := buf }
  | some bodyBytes =>
    let buf1 := buf.Write bodyBytes
    let buf2 := buf1.WriteString (processedBy now)
    let response := bytesOfASCII "Buggy response (len: " ++ bytesOfASCII (toString buf2.Len)
      ++ bytesOfASCII "): " ++ buf2.String
    { status := 200, body := response, put := buf2 }

/-- `fixedHandler`; the deferred function calls `buf.Reset()` before `Put`. -/
def fixedHandler (now : Int) (body : Option (List UInt8)) (buf : Buffer) : Handled :=
  match body with
  | none =>
    { status := 500, body := bytesOfASCII "Failed to read body\n", put := buf.Reset }
  | some bodyBytes =>
    let buf1 := buf.Write bodyBytes
    let buf2 := buf1.WriteString (processedBy now)
    let response := bytesOfASCII "Fixed response (len: " ++ bytesOfASCII (toString buf2.Len)
      ++ bytesOfASCII "): " ++ buf2.String
    { status := 200, body := response, put := buf2.Reset }

/-! ## The shared pool -/

/-- The contents of `bufferPool`: the buffers that were `Put` and not handed out again. -/
structure Pool where
  items : List Buffer
  deriving DecidableEq, Repr

/-- `bufferPool.Get()` of `sync.Pool`: an arbitrary pooled buffer, which is removed, or
a buffer made by `New`.  `pick` is the choice of the run time: `some i` for the pooled
buffer number `i`, `none` (or a number beyond the pool) for a new buffer. -/
def Pool.Get (pool : Pool) (pick : Option Nat) : Buffer × Pool :=
  match pick with
  | none => (bufferPoolNew, pool)
  | some i =>
    match pool.items[i]? with
    | some buf => (buf, { items := pool.items.eraseIdx i })
    | none => (bufferPoolNew, pool)

/-- `bufferPool.Put(buf)`. -/
def Pool.Put (pool : Pool) (buf : Buffer) : Pool := { items := buf :: pool.items }

/-- The two routes that use `bufferPool`. -/
inductive Route where
  | buggy
  | fixed
  deriving DecidableEq, Repr

/-- A request to `/buggy` or `/fixed`, with what the environment decides while it is
served: the clock, the outcome of reading the body, and the choice of `Get`. -/
structure Request where
  route : Route
  now : Int
  body : Option (List UInt8)
  pick : Option Nat
  deriving DecidableEq, Repr

/-- One request served on the shared pool: `Get`, the handler, and the deferred `Put`. -/
def serve (pool : Pool) (r : Request) : Handled × Pool :=
  let got := pool.Get r.pick
  let handled :=
    match r.route with
    | .buggy => buggyHandler r.now r.body got.1
    | .fixed => fixedHandler r.now r.body got.1
  (handled, got.2.Put handled.put)

/-- The pool after a sequence of requests, first request first. -/
def serveAll (pool : Pool) (rs : List Request) : Pool :=
  rs.foldl (fun p r => (serve p r).2) pool

/-- The response that the claim about `fixedHandler` states for the body `b`:
"Fixed response (len: N): " followed by `b` and " [Processed by REQ-n]", where `N` is
the length of `b` plus the length of " [Processed by REQ-n]". -/
def claimedFixedResponse (now : Int) (b : List UInt8) : List UInt8 :=
  let processed := bytesOfASCII " [Processed by REQ-"
    ++ bytesOfASCII (toString (Int.tmod now 100000)) ++ bytesOfASCII "]"
  bytesOfASCII "Fixed response (len: " ++ bytesOfASCII (toString (b.length + processed.length))
    ++ bytesOfASCII "): " ++ b ++ processed

end SyncPoolLesson

namespace ArenaLesson

/-! ## Arithmetic facts -/

theorem intToUintptr_of_nonneg (i : Int) (h0 : 0 ≤ i) (h1 : i < 2 ^ 63) :
    intToUintptr i = i.toNat := by
  unfold intToUintptr wordSize
  have : i % ((2 ^ 64 : Nat) : Int) = i := by
    apply Int.emod_eq_of_lt h0
    norm_num; omega
  rw [this]

theorem intWrap_of_isInt (i : Int) (h : IsInt i) : intWrap i = i := by
  unfold intWrap
  obtain ⟨h0, h1⟩ := h
  have : (i + 2 ^ 63) % 2 ^ 64 = i + 2 ^ 63 := by
    apply Int.emod_eq_of_lt <;> omega
  omega

theorem slotAddress_eq (base size : Nat) (off : Int) (h0 : 0 ≤ off) (h1 : off < 2 ^ 63) :
    uintptrAdd base (uintptrMul (intToUintptr off) size)
      = (base + off.toNat * size) % wordSize := by
  rw [intToUintptr_of_nonneg off h0 h1]
  unfold uintptrAdd uintptrMul
  exact Nat.add_mod_mod _ _ _

/-- The slot address that `Alloc` computes, for any `offset`, as an integer modulo 2^64. -/
theorem slotAddress_int (base size : Nat) (off : Int) :
    ((uintptrAdd base (uintptrMul (intToUintptr off) size) : Nat) : Int)
      = ((base : Int) + off * (size : Int)) % (wordSize : Int) := by
  have hW : (0 : Int) < (wordSize : Int) := by unfold wordSize; norm_num
  unfold uintptrAdd uintptrMul intToUintptr
  rw [Nat.add_mod_mod]
  push_cast
  rw [Int.toNat_of_nonneg (Int.emod_nonneg _ (ne_of_gt hW))]
  rw [Int.add_emod, Int.mul_emod, Int.emod_emod_of_dvd _ (dvd_refl _), ← Int.mul_emod,
    ← Int.add_emod]

/-- Inside a region that fits below 2^64 the address arithmetic does not wrap. -/
theorem slotAddress_fits (base size : Nat) (off cap : Int) (hb : base < wordSize)
    (h0 : 0 ≤ off) (h1 : off < cap) (hc : cap < 2 ^ 63)
    (hfit : base + cap.toNat * size ≤ wordSize) :
    uintptrAdd base (uintptrMul (intToUintptr off) size) = base + off.toNat * size := by
  rw [slotAddress_eq base size off h0 (by omega)]
  apply Nat.mod_eq_of_lt
  rcases Nat.eq_zero_or_pos size with hz | hpos
  · rw [hz]; simpa using hb
  · have hlt : off.toNat < cap.toNat := by omega
    have := Nat.mul_lt_mul_of_pos_right hlt hpos
    omega

/-! ## Single calls -/

namespace Arena

theorem Alloc_full (a : Arena) (h : a.capacity ≤ a.offset) :
    a.Alloc = (.error .capacityExceeded, a) := by
  unfold Alloc
  rw [if_pos (by omega : a.offset ≥ a.capacity)]

theorem Alloc_room (a : Arena) (hc : IsInt a.capacity) (ho : IsInt a.offset)
    (h : a.offset < a.capacity) :
    a.Alloc = (.ok (uintptrAdd a.basePtr (uintptrMul (intToUintptr a.offset) a.elementSize)),
      { a with offset := a.offset + 1 }) := by
  unfold Alloc
  rw [if_neg (by omega : ¬ a.offset ≥ a.capacity)]
  have hw : intWrap (a.offset + 1) = a.offset + 1 := by
    apply intWrap_of_isInt
    obtain ⟨h0, _⟩ := ho
    obtain ⟨_, h3⟩ := hc
    constructor <;> omega
  simp only [hw]

theorem allocTimes_succ (n : Nat) (a : Arena) :
    allocTimes (n + 1) a = (allocTimes n a).Alloc.2 := by
  unfold allocTimes
  rw [Function.iterate_succ_apply']

/-- While there is room, `n` calls of `Alloc` advance `offset` by `n` and touch nothing else. -/
theorem allocTimes_room (n : Nat) (a : Arena) (hc : IsInt a.capacity) (h0 : 0 ≤ a.offset)
    (h : a.offset + n ≤ a.capacity) :
    allocTimes n a = { a with offset := a.offset + n } := by
  induction n with
  | zero => simp [allocTimes]
  | succ m ih =>
    have hm : a.offset + (m : Int) ≤ a.capacity := by push_cast at h; omega
    rw [allocTimes_succ, ih hm]
    have hlt : a.offset + (m : Int) < a.capacity := by push_cast at h; omega
    have ho : IsInt (a.offset + (m : Int)) := by
      obtain ⟨_, h3⟩ := hc
      constructor <;> omega
    rw [Alloc_room { a with offset := a.offset + (m : Int) } hc ho hlt]
    simp only [Arena.mk.injEq, true_and, and_true]
    push_cast; omega

/-- A full arena stays as it is, however often `Alloc` is called. -/
theorem allocTimes_full (n : Nat) (a : Arena) (h : a.capacity ≤ a.offset) :
    allocTimes n a = a := by
  induction n with
  | zero => simp [allocTimes]
  | succ m ih => rw [allocTimes_succ, ih, Alloc_full a h]

theorem allocTimes_add (m n : Nat) (a : Arena) :
    allocTimes (m + n) a = allocTimes n (allocTimes m a) := by
  unfold allocTimes
  rw [Nat.add_comm, Function.iterate_add_apply]

/-- `Alloc` assigns no field but `offset`. -/
theorem Alloc_frame (a : Arena) :
    a.Alloc.2.basePtr = a.basePtr ∧ a.Alloc.2.capacity = a.capacity ∧
      a.Alloc.2.elementSize = a.elementSize ∧ a.Alloc.2.elementAlign = a.elementAlign := by
  unfold Alloc
  split <;> exact ⟨rfl, rfl, rfl, rfl⟩

theorem step_frame (a : Arena) (op : Op) :
    (a.step op).basePtr = a.basePtr ∧ (a.step op).capacity = a.capacity ∧
      (a.step op).elementSize = a.elementSize ∧ (a.step op).elementAlign = a.elementAlign := by
  cases op
  · exact Alloc_frame a
  all_goals exact ⟨rfl, rfl, rfl, rfl⟩

theorem run_frame (ops : List Op) (a : Arena) :
    (a.run ops).basePtr = a.basePtr ∧ (a.run ops).capacity = a.capacity ∧
      (a.run ops).elementSize = a.elementSize ∧ (a.run ops).elementAlign = a.elementAlign := by
  induction ops generalizing a with
  | nil => exact ⟨rfl, rfl, rfl, rfl⟩
  | cons op rest ih =>
    obtain ⟨h1, h2, h3, h4⟩ := ih (a.step op)
    obtain ⟨g1, g2, g3, g4⟩ := step_frame a op
    show ((a.step op).run rest).basePtr = _ ∧ ((a.step op).run rest).capacity = _ ∧
      ((a.step op).run rest).elementSize = _ ∧ ((a.step op).run rest).elementAlign = _
    exact ⟨h1.trans g1, h2.trans g2, h3.trans g3, h4.trans g4⟩

end Arena

theorem uintptrAndNot_lt (x y : Nat) (hx : x < wordSize) : uintptrAndNot x y < wordSize :=
  lt_of_le_of_lt Nat.and_le_left hx

theorem uintptrSub_lt (x y : Nat) : uintptrSub x y < wordSize :=
  Nat.mod_lt _ (by unfold wordSize; norm_num)

theorem uintptrAdd_lt (x y : Nat) : uintptrAdd x y < wordSize :=
  Nat.mod_lt _ (by unfold wordSize; norm_num)

/-- What a successful `NewArena` returns. -/
theorem NewArena_ok (sz al raw : Nat) (cap : Int) (a : Arena)
    (h : NewArena sz al raw cap = .ok a) :
    0 < cap ∧ a.basePtr < wordSize ∧ a.capacity = cap ∧ a.offset = 0 ∧
      a.elementSize = sz ∧ a.elementAlign = al := by
  unfold NewArena at h
  split at h
  · cases h
  · simp only at h
    split at h
    · cases h
    · split at h
      · cases h
      · cases h
        exact ⟨by omega, uintptrAndNot_lt _ _ (uintptrSub_lt _ _), rfl, rfl, rfl, rfl⟩

/-- `Validate` never panics: it returns whether `ptr` lies between the base and the
end address as the code computes it, at a multiple of the element size from the base. -/
theorem Validate_eq (a : Arena) (p : Nat) :
    a.Validate p = .ok (decide (a.basePtr ≤ p ∧
      p < uintptrAdd a.basePtr (uintptrMul (intToUintptr a.capacity) a.elementSize) ∧
      (p - a.basePtr) % a.elementSize = 0)) := by
  unfold Arena.Validate
  simp only
  by_cases h1 : p ≥ a.basePtr
  · rw [if_pos h1]
    by_cases h2 : p < uintptrAdd a.basePtr (uintptrMul (intToUintptr a.capacity) a.elementSize)
    · rw [if_pos h2]
      have hstop := uintptrAdd_lt a.basePtr (uintptrMul (intToUintptr a.capacity) a.elementSize)
      have hb : a.basePtr < wordSize := by omega
      have hsub : uintptrSub p a.basePtr = p - a.basePtr := by
        unfold uintptrSub
        rw [Nat.mod_eq_of_lt hb]
        have : p + wordSize - a.basePtr = (p - a.basePtr) + wordSize := by omega
        rw [this, Nat.add_mod_right]
        exact Nat.mod_eq_of_lt (by omega)
      by_cases h3 : a.elementSize = 0
      · exfalso
        unfold uintptrAdd uintptrMul at h2
        rw [h3, Nat.mul_zero, Nat.zero_mod, Nat.add_zero, Nat.mod_eq_of_lt hb] at h2
        omega
      · rw [if_neg h3, hsub]
        congr 1
        simp [h1, h2]
    · rw [if_neg h2]
      congr 1
      simp [h2]
  · rw [if_neg h1]
    congr 1
    simp [h1]

/-- When the slot region ends below 2^64, the end address that `Validate` computes is
`base + capacity * element_size`. -/
theorem stopAddress_fits (base size : Nat) (cap : Int) (h0 : 0 ≤ cap)
    (hfit : base + cap.toNat * size < wordSize) :
    uintptrAdd base (uintptrMul (intToUintptr cap) size) = base + cap.toNat * size := by
  apply Int.ofNat_inj.mp
  show ((uintptrAdd base (uintptrMul (intToUintptr cap) size) : Nat) : Int) = _
  rw [slotAddress_int]
  have hc : ((cap.toNat : Nat) : Int) = cap := Int.toNat_of_nonneg h0
  have hlt := (Nat.cast_lt (α := Int)).mpr hfit
  push_cast at hlt ⊢
  rw [hc] at hlt ⊢
  exact Int.emod_eq_of_lt (by positivity) hlt

/-- One call keeps `0 ≤ offset ≤ capacity`. -/
theorem step_offsetInBounds (a : Arena) (op : Arena.Op) (hc : IsInt a.capacity)
    (h : a.OffsetInBounds) : (a.step op).OffsetInBounds := by
  obtain ⟨h0, h1⟩ := h
  cases op with
  | alloc =>
    show (a.Alloc.2).OffsetInBounds
    by_cases hfull : a.capacity ≤ a.offset
    · rw [Arena.Alloc_full a hfull]
      exact ⟨h0, h1⟩
    · have ho : IsInt a.offset := by
        obtain ⟨_, h3⟩ := hc
        constructor <;> omega
      rw [Arena.Alloc_room a hc ho (by omega)]
      constructor
      · show 0 ≤ a.offset + 1
        omega
      · show a.offset + 1 ≤ a.capacity
        omega
  | reset =>
    constructor
    · show (0 : Int) ≤ 0
      omega
    · show (0 : Int) ≤ a.capacity
      omega
  | currentUsage => exact ⟨h0, h1⟩
  | getCapacity => exact ⟨h0, h1⟩
  | validate _ => exact ⟨h0, h1⟩

/-- Any sequence of calls keeps `0 ≤ offset ≤ capacity`. -/
theorem run_offsetInBounds (ops : List Arena.Op) (a : Arena) (hc : IsInt a.capacity)
    (h : a.OffsetInBounds) : (a.run ops).OffsetInBounds := by
  induction ops generalizing a with
  | nil => exact h
  | cons op rest ih =>
    show ((a.step op).run rest).OffsetInBounds
    apply ih
    · rw [(Arena.step_frame a op).2.1]; exact hc
    · exact step_offsetInBounds a op hc h

/-- Along any call sequence the recorded pointers are those of the slots
`0, …, offset - 1`, in this order, and the arena is the one `run` computes. -/
theorem trace_spec (ops : List Arena.Op) (a : Arena) (live : List Nat)
    (hc : IsInt a.capacity) (hinv : a.OffsetInBounds)
    (hlive : live = (List.range a.offset.toNat).map a.slotPtr) :
    (a.trace live ops).1 = a.run ops ∧
      (a.trace live ops).2
        = (List.range (a.run ops).offset.toNat).map a.slotPtr := by
  induction ops generalizing a live with
  | nil => exact ⟨rfl, hlive⟩
  | cons op rest ih =>
    obtain ⟨h0, h1⟩ := hinv
    cases op with
    | alloc =>
      by_cases hfull : a.capacity ≤ a.offset
      · have hA := Arena.Alloc_full a hfull
        have hstep : a.run (Arena.Op.alloc :: rest) = a.run rest := by
          show (a.step .alloc).run rest = a.run rest
          show (a.Alloc.2).run rest = a.run rest
          rw [hA]
        rw [hstep]
        have ht : a.trace live (Arena.Op.alloc :: rest) = a.trace live rest := by
          rw [Arena.trace, hA]
        rw [ht]
        exact ih a live hc ⟨h0, h1⟩ hlive
      · have ho : IsInt a.offset := by
          obtain ⟨_, h3⟩ := hc
          constructor <;> omega
        have hA := Arena.Alloc_room a hc ho (by omega)
        have hstep : a.run (Arena.Op.alloc :: rest)
            = ({ a with offset := a.offset + 1 } : Arena).run rest := by
          show (a.Alloc.2).run rest = _
          rw [hA]
        have hp : uintptrAdd a.basePtr (uintptrMul (intToUintptr a.offset) a.elementSize)
            = a.slotPtr a.offset.toNat := by
          unfold Arena.slotPtr
          rw [Int.toNat_of_nonneg h0]
        have ht : a.trace live (Arena.Op.alloc :: rest)
            = ({ a with offset := a.offset + 1 } : Arena).trace
                (live ++ [a.slotPtr a.offset.toNat]) rest := by
          rw [Arena.trace, hA, hp]
        rw [hstep, ht]
        have hn : (a.offset + 1).toNat = a.offset.toNat + 1 := by omega
        exact ih { a with offset := a.offset + 1 } _ hc
          ⟨by show 0 ≤ a.offset + 1; omega, by show a.offset + 1 ≤ a.capacity; omega⟩
          (by
            show live ++ [a.slotPtr a.offset.toNat]
              = (List.range (a.offset + 1).toNat).map a.slotPtr
            rw [hn, List.range_succ, List.map_append, hlive]
            rfl)
    | reset =>
      exact ih a.Reset [] hc
        ⟨by show (0 : Int) ≤ 0; omega, by show (0 : Int) ≤ a.capacity; omega⟩ rfl
    | currentUsage => exact ih a live hc ⟨h0, h1⟩ hlive
    | getCapacity => exact ih a live hc ⟨h0, h1⟩ hlive
    | validate _ => exact ih a live hc ⟨h0, h1⟩ hlive

/-- Clearing the low `k` bits rounds down to a multiple of `2^k`. -/
theorem uintptrAndNot_lowMask (x k : Nat) (hx : x < wordSize) (hk : k ≤ 64) :
    uintptrAndNot x (2 ^ k - 1) = x / 2 ^ k * 2 ^ k := by
  unfold uintptrAndNot uintptrNot
  have hm : (2 ^ k - 1) % wordSize = 2 ^ k - 1 := by
    apply Nat.mod_eq_of_lt
    have : 2 ^ k ≤ 2 ^ 64 := Nat.pow_le_pow_right (by norm_num) hk
    have : 0 < 2 ^ k := Nat.two_pow_pos k
    unfold wordSize; omega
  rw [hm]
  apply Nat.eq_of_testBit_eq
  intro i
  rw [Nat.testBit_and, Nat.testBit_xor]
  unfold wordSize
  rw [Nat.testBit_two_pow_sub_one, Nat.testBit_two_pow_sub_one, ← Nat.shiftLeft_eq,
    ← Nat.shiftRight_eq_div_pow, Nat.testBit_shiftLeft, Nat.testBit_shiftRight]
  by_cases hik : i < k
  · have : ¬ i ≥ k := by omega
    have h64 : i < 64 := by omega
    simp [hik, this, h64]
  · have hge : i ≥ k := by omega
    have e : k + (i - k) = i := by omega
    by_cases h64 : i < 64
    · simp [hik, hge, h64, e]
    · have : x.testBit i = false := by
        apply Nat.testBit_lt_two_pow
        calc x < 2 ^ 64 := hx
          _ ≤ 2 ^ i := Nat.pow_le_pow_right (by norm_num) (by omega)
      simp [hik, hge, h64, e, this]

/-- The base address stored by a successful `NewArena`. -/
theorem NewArena_basePtr (sz al raw : Nat) (cap : Int) (a : Arena)
    (h : NewArena sz al raw cap = .ok a) :
    a.basePtr = uintptrAndNot (uintptrSub (uintptrAdd raw al) 1) (uintptrSub al 1) ∧
      totalBytes sz al cap ≠ 0 ∧ totalBytes sz al cap ≤ maxAlloc := by
  unfold NewArena at h
  split at h
  · cases h
  · simp only at h
    split at h
    · cases h
    · split at h
      · cases h
      · rename_i h1 h2
        cases h
        exact ⟨rfl, h2, by unfold totalBytes; omega⟩

/-- Without wrap-around the aligned base is `p + a - 1` rounded down to a multiple of
the alignment `a = 2^k`. -/
theorem alignedBase_eq (p k : Nat) (hk : k < 64) (hp : p + 2 ^ k - 1 < wordSize) :
    uintptrAndNot (uintptrSub (uintptrAdd p (2 ^ k)) 1) (uintptrSub (2 ^ k) 1)
      = (p + 2 ^ k - 1) / 2 ^ k * 2 ^ k := by
  have hpos : 0 < 2 ^ k := Nat.two_pow_pos k
  have hlt : 2 ^ k < 2 ^ 64 := Nat.pow_lt_pow_right (by norm_num) hk
  have hp64 : p + 2 ^ k - 1 < 2 ^ 64 := hp
  have h1 : uintptrSub (uintptrAdd p (2 ^ k)) 1 = p + 2 ^ k - 1 := by
    unfold uintptrSub uintptrAdd wordSize
    rcases Nat.lt_or_ge (p + 2 ^ k) (2 ^ 64) with hs | hs
    · rw [Nat.mod_eq_of_lt hs]
      omega
    · have he : p + 2 ^ k = 2 ^ 64 := by omega
      rw [he]
      omega
  have h2 : uintptrSub (2 ^ k) 1 = 2 ^ k - 1 := by
    unfold uintptrSub wordSize
    omega
  rw [h1, h2]
  exact uintptrAndNot_lowMask _ k hp (by omega)

/-- Rounding `p + a - 1` down to a multiple of `a` gives the least multiple of `a`
that is at least `p`. -/
theorem roundUp_least (p a : Nat) (ha : 0 < a) :
    ((p + a - 1) / a * a) % a = 0 ∧ p ≤ (p + a - 1) / a * a ∧
      (p + a - 1) / a * a - p ≤ a - 1 ∧
      ∀ m, p ≤ m → m % a = 0 → (p + a - 1) / a * a ≤ m := by
  have hdm := Nat.div_add_mod (p + a - 1) a
  have hmod := Nat.mod_lt (p + a - 1) ha
  have hcomm : (p + a - 1) / a * a = a * ((p + a - 1) / a) := Nat.mul_comm _ _
  refine ⟨Nat.mul_mod_left _ _, by omega, by omega, ?_⟩
  intro m hm hma
  obtain ⟨j, rfl⟩ := Nat.dvd_of_mod_eq_zero hma
  rw [Nat.mul_comm]
  apply Nat.mul_le_mul_left
  have : (p + a - 1) / a ≤ (a * j + a - 1) / a := Nat.div_le_div_right (by omega)
  have hj : (a * j + a - 1) / a = j := by
    have : a * j + a - 1 = (a - 1) + a * j := by omega
    rw [this, Nat.add_mul_div_left _ _ ha, Nat.div_eq_of_lt (by omega)]
    omega
  omega

/-! ## Bump allocation -/

/-- C1 (the code at the failing input): for `MyData` (32 bytes, alignment 8) `NewArena`
accepts the capacity 2^62, and call number `k = 2^59 + 1` of `Alloc` succeeds but returns
the base address again, the pointer that call number 1 returned, because
`uintptr(offset) * elementSize` has wrapped to 0; it does not return
`base + (k-1) * element_size`. -/
theorem alloc_address_wraps_at_large_capacity :
    NewArena 32 8 0xc000012000 (2 ^ 62) = .ok ⟨0xc000012000, 2 ^ 62, 0, 32, 8⟩ ∧
    (1 ≤ 2 ^ 59 + 1 ∧ ((2 ^ 59 + 1 : Nat) : Int) ≤ 2 ^ 62) ∧
    ((Arena.mk 0xc000012000 (2 ^ 62) 0 32 8).allocTimes (2 ^ 59 + 1 - 1)).Alloc.1
      = .ok 0xc000012000 ∧
    ((Arena.mk 0xc000012000 (2 ^ 62) 0 32 8).allocTimes (2 ^ 59 + 1 - 1)).Alloc.1
      ≠ .ok (0xc000012000 + (2 ^ 59 + 1 - 1) * 32) := by
  have hc : IsInt (2 ^ 62 : Int) := by unfold IsInt; norm_num
  have hst : (Arena.mk 0xc000012000 (2 ^ 62) 0 32 8).allocTimes (2 ^ 59 + 1 - 1)
      = Arena.mk 0xc000012000 (2 ^ 62) (2 ^ 59) 32 8 := by
    rw [Arena.allocTimes_room _ _ hc (by norm_num) (by norm_num)]
    norm_num
  have hres : (Arena.mk 0xc000012000 (2 ^ 62) (2 ^ 59) 32 8).Alloc.1 = .ok 0xc000012000 := by
    rw [Arena.Alloc_room _ hc (by unfold IsInt; norm_num) (by norm_num)]
    simp only
    rw [slotAddress_eq _ _ _ (by norm_num) (by norm_num)]
    simp [wordSize]
  refine ⟨by decide, by norm_num, ?_, ?_⟩
  · rw [hst, hres]
  · rw [hst, hres]
    norm_num

/-- Consecutive calls from an arena whose `offset` is 0, which is how `NewArena` builds
it and how `Reset` leaves it: call number `k` of `Alloc`, for `1 ≤ k ≤ capacity`,
succeeds, with the address that the `uintptr` arithmetic of `Alloc` gives; when the slot
region does not run past the end of the address space,
`base + capacity * element_size ≤ 2^64`, the address is `base + (k-1) * element_size`. -/
theorem alloc_kth_address (a : Arena) (k : Nat) (hr : a.InRange) (h0 : a.offset = 0)
    (hk1 : 1 ≤ k) (hk : (k : Int) ≤ a.capacity) :
    (a.allocTimes (k - 1)).Alloc.1
        = .ok ((a.basePtr + (k - 1) * a.elementSize) % wordSize) ∧
      (a.basePtr + a.capacity.toNat * a.elementSize ≤ wordSize →
        (a.allocTimes (k - 1)).Alloc.1 = .ok (a.basePtr + (k - 1) * a.elementSize)) := by
  obtain ⟨hb, hc, ho, _, _⟩ := hr
  have hcap : a.capacity < 2 ^ 63 := hc.2
  have hk' : ((k - 1 : Nat) : Int) = (k : Int) - 1 := by omega
  have hst : a.allocTimes (k - 1) = { a with offset := ((k - 1 : Nat) : Int) } := by
    rw [Arena.allocTimes_room _ _ hc (by omega) (by omega), h0]
    simp
  have hres : (a.allocTimes (k - 1)).Alloc.1
      = .ok ((a.basePtr + (k - 1) * a.elementSize) % wordSize) := by
    rw [hst, Arena.Alloc_room { a with offset := ((k - 1 : Nat) : Int) } hc
      (by show IsInt ((k - 1 : Nat) : Int); constructor <;> omega)
      (by show ((k - 1 : Nat) : Int) < a.capacity; omega)]
    simp only
    rw [slotAddress_eq _ _ _ (by omega) (by omega)]
    simp
  refine ⟨hres, fun hfit => ?_⟩
  rw [hres]
  congr 1
  apply Nat.mod_eq_of_lt
  rcases Nat.eq_zero_or_pos a.elementSize with hz | hpos
  · rw [hz]; simpa using hb
  · have hlt : k - 1 < a.capacity.toNat := by omega
    have := Nat.mul_lt_mul_of_pos_right hlt hpos
    omega

/-- The arena that `NewArena` builds for `MyData` with capacity 10, as in the demo: the
third call returns the third slot. -/
theorem alloc_kth_address_witness :
    (Arena.mk 0xc000012000 10 0 32 8).InRange ∧
    ((Arena.mk 0xc000012000 10 0 32 8).allocTimes (3 - 1)).Alloc.1
        = .ok ((0xc000012000 + (3 - 1) * 32) % wordSize) ∧
      (0xc000012000 + (10 : Int).toNat * 32 ≤ wordSize →
        ((Arena.mk 0xc000012000 10 0 32 8).allocTimes (3 - 1)).Alloc.1
          = .ok (0xc000012000 + (3 - 1) * 32)) :=
  ⟨by decide, alloc_kth_address ⟨0xc000012000, 10, 0, 32, 8⟩ 3 (by decide) rfl (by decide)
    (by decide)⟩

/-- C2: from an arena with `capacity > 0` and `offset = 0` (fresh, or just Reset), the
first `capacity` calls of `Alloc` succeed, call `capacity + 1` and every later one returns
the capacity-exceeded error, `CurrentUsage` is `capacity` after the failed call, and a
`Reset` followed by `Alloc` succeeds again. -/
theorem alloc_exactly_capacity_times (a : Arena) (hr : a.InRange) (h0 : a.offset = 0)
    (hcap : 0 < a.capacity) :
    (∀ k : Nat, 1 ≤ k → (k : Int) ≤ a.capacity →
        ∃ p, (a.allocTimes (k - 1)).Alloc.1 = .ok p) ∧
      (∀ k : Nat, a.capacity < (k : Int) →
        (a.allocTimes (k - 1)).Alloc.1 = .error .capacityExceeded) ∧
      (a.allocTimes a.capacity.toNat).Alloc.1 = .error .capacityExceeded ∧
      (a.allocTimes a.capacity.toNat).Alloc.2.CurrentUsage = a.capacity ∧
      ∃ p, (a.allocTimes a.capacity.toNat).Alloc.2.Reset.Alloc.1 = .ok p := by
  obtain ⟨hb, hc, ho, _, _⟩ := hr
  have hfull : a.allocTimes a.capacity.toNat = { a with offset := a.capacity } := by
    rw [Arena.allocTimes_room _ _ hc (by omega) (by omega), h0]
    simp only [Arena.mk.injEq, true_and, and_true]
    omega
  have hlate : ∀ n : Nat, a.capacity.toNat ≤ n →
      a.allocTimes n = { a with offset := a.capacity } := by
    intro n hn
    obtain ⟨m, rfl⟩ := Nat.exists_eq_add_of_le hn
    rw [Arena.allocTimes_add, hfull]
    exact Arena.allocTimes_full m _ (le_refl _)
  have hfail : ({ a with offset := a.capacity } : Arena).Alloc
      = (.error .capacityExceeded, { a with offset := a.capacity }) :=
    Arena.Alloc_full _ (le_refl _)
  refine ⟨?_, ?_, ?_, ?_, ?_⟩
  · intro k hk1 hk
    have hst : a.allocTimes (k - 1) = { a with offset := a.offset + ((k - 1 : Nat) : Int) } :=
      Arena.allocTimes_room _ _ hc (by omega) (by omega)
    rw [hst, Arena.Alloc_room { a with offset := a.offset + ((k - 1 : Nat) : Int) } hc
      (by show IsInt (a.offset + ((k - 1 : Nat) : Int)); obtain ⟨_, h3⟩ := hc
          constructor <;> omega)
      (by show a.offset + ((k - 1 : Nat) : Int) < a.capacity; omega)]
    exact ⟨_, rfl⟩
  · intro k hk
    rw [hlate (k - 1) (by omega), hfail]
  · rw [hfull, hfail]
  · rw [hfull, hfail]
    rfl
  · rw [hfull, hfail]
    have hroom := Arena.Alloc_room ({ a with offset := a.capacity } : Arena).Reset hc
      (by show IsInt 0; unfold IsInt; norm_num) (by show (0 : Int) < a.capacity; exact hcap)
    rw [hroom]
    exact ⟨_, rfl⟩

/-- The demo arena: capacity 10, `MyData` elements. -/
theorem alloc_exactly_capacity_times_witness :
    (∀ k : Nat, 1 ≤ k → (k : Int) ≤ (Arena.mk 0xc000012000 10 0 32 8).capacity →
        ∃ p, ((Arena.mk 0xc000012000 10 0 32 8).allocTimes (k - 1)).Alloc.1 = .ok p) ∧
      (∀ k : Nat, (Arena.mk 0xc000012000 10 0 32 8).capacity < (k : Int) →
        ((Arena.mk 0xc000012000 10 0 32 8).allocTimes (k - 1)).Alloc.1
          = .error .capacityExceeded) ∧
      ((Arena.mk 0xc000012000 10 0 32 8).allocTimes
          (Arena.mk 0xc000012000 10 0 32 8).capacity.toNat).Alloc.1
        = .error .capacityExceeded ∧
      ((Arena.mk 0xc000012000 10 0 32 8).allocTimes
          (Arena.mk 0xc000012000 10 0 32 8).capacity.toNat).Alloc.2.CurrentUsage
        = (Arena.mk 0xc000012000 10 0 32 8).capacity ∧
      ∃ p, ((Arena.mk 0xc000012000 10 0 32 8).allocTimes
          (Arena.mk 0xc000012000 10 0 32 8).capacity.toNat).Alloc.2.Reset.Alloc.1 = .ok p :=
  alloc_exactly_capacity_times ⟨0xc000012000, 10, 0, 32, 8⟩ (by decide) rfl (by decide)

/-- C3 (the code at the failing input): the state reached from the fresh `MyData` arena
of capacity 2^62 by 2^59 calls of `Alloc` has room, and `Alloc` succeeds there and
advances `offset` by 1, but it returns the base address and not
`base + old_offset * element_size`. -/
theorem alloc_single_call_address_wraps :
    (Arena.mk 0xc000012000 (2 ^ 62) 0 32 8).allocTimes (2 ^ 59)
        = ⟨0xc000012000, 2 ^ 62, 2 ^ 59, 32, 8⟩ ∧
      (Arena.mk 0xc000012000 (2 ^ 62) (2 ^ 59) 32 8).InRange ∧
      (Arena.mk 0xc000012000 (2 ^ 62) (2 ^ 59) 32 8).Alloc
        = (.ok 0xc000012000, ⟨0xc000012000, 2 ^ 62, 2 ^ 59 + 1, 32, 8⟩) ∧
      (Arena.mk 0xc000012000 (2 ^ 62) (2 ^ 59) 32 8).Alloc.1
        ≠ .ok (0xc000012000 + 2 ^ 59 * 32) := by
  have hc : IsInt (2 ^ 62 : Int) := by unfold IsInt; norm_num
  have hres : (Arena.mk 0xc000012000 (2 ^ 62) (2 ^ 59) 32 8).Alloc
      = (.ok 0xc000012000, ⟨0xc000012000, 2 ^ 62, 2 ^ 59 + 1, 32, 8⟩) := by
    rw [Arena.Alloc_room _ hc (by unfold IsInt; norm_num) (by norm_num)]
    simp only
    rw [slotAddress_eq _ _ _ (by norm_num) (by norm_num)]
    simp [wordSize]
  refine ⟨?_, by decide, hres, ?_⟩
  · rw [Arena.allocTimes_room _ _ hc (by norm_num) (by norm_num)]
    norm_num
  · rw [hres]
    norm_num

/-- One call of `Alloc` in any arena state: it returns an error exactly when
`offset ≥ capacity`.  When it fails the arena is unchanged and no pointer is returned.
When it succeeds `offset` grows by exactly 1, no other field changes, and the returned
address is the one that the `uintptr` arithmetic gives, which is
`base + old_offset * element_size` whenever `old_offset ≥ 0` and
`base + capacity * element_size ≤ 2^64`. -/
theorem alloc_fails_iff_full (a : Arena) (hr : a.InRange) :
    ((∃ e, a.Alloc.1 = .error e) ↔ a.offset ≥ a.capacity) ∧
      (a.offset ≥ a.capacity → a.Alloc = (.error .capacityExceeded, a)) ∧
      (a.offset < a.capacity →
        a.Alloc.2 = { a with offset := a.offset + 1 } ∧
        ∃ p, a.Alloc.1 = .ok p ∧
          (p : Int) = ((a.basePtr : Int) + a.offset * (a.elementSize : Int)) % (wordSize : Int) ∧
          (0 ≤ a.offset → a.basePtr + a.capacity.toNat * a.elementSize ≤ wordSize →
            p = a.basePtr + a.offset.toNat * a.elementSize)) := by
  obtain ⟨hb, hc, ho, _, _⟩ := hr
  refine ⟨⟨?_, ?_⟩, ?_, ?_⟩
  · rintro ⟨e, he⟩
    by_contra hlt
    rw [Arena.Alloc_room a hc ho (by omega)] at he
    cases he
  · intro hge
    rw [Arena.Alloc_full a hge]
    exact ⟨_, rfl⟩
  · intro hge
    exact Arena.Alloc_full a hge
  · intro hlt
    rw [Arena.Alloc_room a hc ho hlt]
    refine ⟨rfl, _, rfl, slotAddress_int _ _ _, ?_⟩
    intro h0 hfit
    exact slotAddress_fits _ _ _ _ hb h0 hlt hc.2 hfit

/-- The demo arena after five allocations. -/
theorem alloc_fails_iff_full_witness :
    (Arena.mk 0xc000012000 10 5 32 8).InRange ∧
      (Arena.mk 0xc000012000 10 5 32 8).Alloc
        = (.ok (0xc000012000 + 5 * 32), ⟨0xc000012000, 10, 6, 32, 8⟩) ∧
      (Arena.mk 0xc000012000 10 5 32 8).Alloc.2
        = { (Arena.mk 0xc000012000 10 5 32 8) with offset := 5 + 1 } :=
  ⟨by decide, by decide,
    ((alloc_fails_iff_full ⟨0xc000012000, 10, 5, 32, 8⟩ (by decide)).2.2 (by decide)).1⟩

/-! ## Reset -/

/-- C4: in every state reached from a successful `NewArena` by any sequence of calls,
`Reset` makes `CurrentUsage` return 0, and the first `Alloc` after the `Reset` succeeds
and returns the address that the very first `Alloc` after construction returned, which
is the base address fixed by `NewArena`. -/
theorem reset_reuses_first_slot (sz al raw : Nat) (cap : Int) (a0 : Arena)
    (h : NewArena sz al raw cap = .ok a0) (ops : List Arena.Op) :
    (a0.run ops).Reset.CurrentUsage = 0 ∧
      a0.Alloc.1 = .ok a0.basePtr ∧
      (a0.run ops).Reset.Alloc.1 = .ok a0.basePtr := by
  obtain ⟨hpos, hb, hcap, hoff, _, _⟩ := NewArena_ok sz al raw cap a0 h
  obtain ⟨f1, f2, f3, _⟩ := Arena.run_frame ops a0
  have hfirst : ∀ s : Arena, s.offset = 0 → s.basePtr = a0.basePtr → s.capacity = a0.capacity →
      s.Alloc.1 = .ok a0.basePtr := by
    intro s hs0 hsb hsc
    unfold Arena.Alloc
    rw [if_neg (by omega : ¬ s.offset ≥ s.capacity)]
    simp only [hs0, hsb]
    congr 1
    unfold uintptrAdd uintptrMul intToUintptr
    simp only [Int.zero_emod, Int.toNat_zero, Nat.zero_mul, Nat.zero_mod, Nat.add_zero]
    exact Nat.mod_eq_of_lt hb
  exact ⟨rfl, hfirst a0 hoff rfl rfl, hfirst _ rfl f1 f2⟩

/-- The demo: ten allocations, a failed one, then `Reset`. -/
theorem reset_reuses_first_slot_witness :
    NewArena 32 8 0xc000012000 10 = .ok ⟨0xc000012000, 10, 0, 32, 8⟩ ∧
      (Arena.mk 0xc000012000 10 0 32 8).Alloc.1 = .ok 0xc000012000 ∧
      ((Arena.mk 0xc000012000 10 0 32 8).run
        (List.replicate 11 Arena.Op.alloc)).Reset.Alloc.1 = .ok 0xc000012000 :=
  ⟨by decide, (reset_reuses_first_slot 32 8 0xc000012000 10 ⟨0xc000012000, 10, 0, 32, 8⟩
    (by decide) (List.replicate 11 Arena.Op.alloc)).2⟩

/-! ## Validate -/

/-- C5 (the code at the failing input): for the `MyData` arena of capacity 2^62 that
`NewArena` returns, the base address, which is the pointer that the first `Alloc` hands
out, lies in `[base, base + capacity * element_size)` at distance 0 from the base, yet
`Validate` returns false, because the end address has wrapped round to the base. -/
theorem validate_rejects_base_when_end_wraps :
    NewArena 32 8 0xc000012000 (2 ^ 62) = .ok ⟨0xc000012000, 2 ^ 62, 0, 32, 8⟩ ∧
      (Arena.mk 0xc000012000 (2 ^ 62) 0 32 8).Validate 0xc000012000 = .ok false ∧
      (0xc000012000 ≤ 0xc000012000 ∧ 0xc000012000 < 0xc000012000 + 2 ^ 62 * 32 ∧
        (0xc000012000 - 0xc000012000) % 32 = 0) := by
  refine ⟨by decide, by decide, by norm_num⟩

/-- What `Validate` computes: it returns true if and only if `p` lies between the base
and the end address as the `uintptr` arithmetic gives it, at a multiple of
`element_size` from the base; whenever `capacity ≥ 0` and
`base + capacity * element_size < 2^64` this is the range
`[base, base + capacity * element_size)`. -/
theorem validate_true_iff (a : Arena) (p : Nat) :
    (a.Validate p = .ok true ↔
        a.basePtr ≤ p ∧
        (p : Int) < ((a.basePtr : Int) + a.capacity * (a.elementSize : Int)) % (wordSize : Int) ∧
        (p - a.basePtr) % a.elementSize = 0) ∧
      (0 ≤ a.capacity → a.basePtr + a.capacity.toNat * a.elementSize < wordSize →
        (a.Validate p = .ok true ↔
          a.basePtr ≤ p ∧ p < a.basePtr + a.capacity.toNat * a.elementSize ∧
          (p - a.basePtr) % a.elementSize = 0)) := by
  have hcode : a.Validate p = .ok true ↔
      a.basePtr ≤ p ∧
      (p : Int) < ((a.basePtr : Int) + a.capacity * (a.elementSize : Int)) % (wordSize : Int) ∧
      (p - a.basePtr) % a.elementSize = 0 := by
    rw [Validate_eq, ← slotAddress_int, Nat.cast_lt]
    constructor
    · intro h
      injection h with h
      exact of_decide_eq_true h
    · intro h
      rw [decide_eq_true h]
  refine ⟨hcode, fun h0 hfit => ?_⟩
  rw [hcode]
  have hstop : ((a.basePtr : Int) + a.capacity * (a.elementSize : Int)) % (wordSize : Int)
      = ((a.basePtr + a.capacity.toNat * a.elementSize : Nat) : Int) := by
    have hc : ((a.capacity.toNat : Nat) : Int) = a.capacity := Int.toNat_of_nonneg h0
    push_cast
    rw [hc]
    apply Int.emod_eq_of_lt
    · positivity
    · have := (Nat.cast_lt (α := Int)).mpr hfit
      push_cast at this
      rw [hc] at this
      exact this
  rw [hstop, Nat.cast_lt]

/-- The demo arena: the third slot validates, an address inside a slot does not. -/
theorem validate_true_iff_witness :
    (Arena.mk 0xc000012000 10 3 32 8).Validate (0xc000012000 + 2 * 32) = .ok true ∧
      (Arena.mk 0xc000012000 10 3 32 8).Validate (0xc000012000 + 2 * 32 + 8) = .ok false ∧
      ((Arena.mk 0xc000012000 10 3 32 8).Validate (0xc000012000 + 2 * 32) = .ok true ↔
        0xc000012000 ≤ 0xc000012000 + 2 * 32 ∧
        0xc000012000 + 2 * 32 < 0xc000012000 + (10 : Int).toNat * 32 ∧
        (0xc000012000 + 2 * 32 - 0xc000012000) % 32 = 0) :=
  ⟨by decide, by decide,
    (validate_true_iff ⟨0xc000012000, 10, 3, 32, 8⟩ (0xc000012000 + 2 * 32)).2
      (by decide) (by decide)⟩

/-- C6, as stated, fails in two ways.  For a zero-size element type of alignment 8
(such as `[0]int64`) `NewArena` succeeds, `Alloc` hands out the base address, the range
`[base, base + capacity * 0)` is empty, and `Validate` returns false for the handle.
For `MyData` with capacity 2^62 the end address wraps round to the base, and `Validate`
returns false for the first handle as well. -/
theorem validate_rejects_issued_handle :
    (NewArena 0 8 0xc000012000 10 = .ok ⟨0xc000012000, 10, 0, 0, 8⟩ ∧
      (Arena.mk 0xc000012000 10 0 0 8).Alloc
        = (.ok 0xc000012000, ⟨0xc000012000, 10, 1, 0, 8⟩) ∧
      ¬ (0xc000012000 < 0xc000012000 + 10 * 0) ∧
      (Arena.mk 0xc000012000 10 1 0 8).Validate 0xc000012000 = .ok false) ∧
    (NewArena 32 8 0xc000012000 (2 ^ 62) = .ok ⟨0xc000012000, 2 ^ 62, 0, 32, 8⟩ ∧
      (Arena.mk 0xc000012000 (2 ^ 62) 0 32 8).Alloc
        = (.ok 0xc000012000, ⟨0xc000012000, 2 ^ 62, 1, 32, 8⟩) ∧
      (Arena.mk 0xc000012000 (2 ^ 62) 1 32 8).Validate 0xc000012000 = .ok false) := by
  refine ⟨⟨by decide, by decide, by decide, by decide⟩, by decide, by decide, by decide⟩

/-- C6 (amended): for every element type with `element_size > 0` and every capacity
whose slot region ends below 2^64, in every state reached from a successful `NewArena`
by any sequence of calls: a handle returned by a successful `Alloc` lies in
`[base, base + capacity * element_size)` at a multiple of `element_size` from the base,
and `Validate` returns true for it in every later state; `Validate` returns false for
every address outside that range and for every address in the range whose distance
from the base is not a multiple of `element_size`. -/
theorem issued_handles_validate (sz al raw : Nat) (cap : Int) (a0 : Arena)
    (hcap : IsInt cap) (hsz : 0 < sz) (h : NewArena sz al raw cap = .ok a0)
    (hfit : a0.basePtr + cap.toNat * sz < wordSize) (ops : List Arena.Op) :
    (∀ p, (a0.run ops).Alloc.1 = .ok p →
        (a0.basePtr ≤ p ∧ p < a0.basePtr + cap.toNat * sz ∧ (p - a0.basePtr) % sz = 0) ∧
        ∀ later, ((a0.run ops).Alloc.2.run later).Validate p = .ok true) ∧
      (∀ q, q < a0.basePtr ∨ a0.basePtr + cap.toNat * sz ≤ q →
        (a0.run ops).Validate q = .ok false) ∧
      (∀ q, a0.basePtr ≤ q → q < a0.basePtr + cap.toNat * sz → (q - a0.basePtr) % sz ≠ 0 →
        (a0.run ops).Validate q = .ok false) := by
  obtain ⟨hpos, hb, hc0, hoff, hs0, _⟩ := NewArena_ok sz al raw cap a0 h
  have hval : ∀ (s : Arena) (q : Nat), s.basePtr = a0.basePtr → s.capacity = cap →
      s.elementSize = sz →
      s.Validate q = .ok (decide (a0.basePtr ≤ q ∧ q < a0.basePtr + cap.toNat * sz ∧
        (q - a0.basePtr) % sz = 0)) := by
    intro s q e1 e2 e3
    rw [Validate_eq, e1, e2, e3, stopAddress_fits _ _ _ (by omega) hfit]
  obtain ⟨f1, f2, f3, _⟩ := Arena.run_frame ops a0
  have hinv : (a0.run ops).OffsetInBounds :=
    run_offsetInBounds ops a0 (by rw [hc0]; exact hcap) ⟨by omega, by omega⟩
  refine ⟨?_, ?_, ?_⟩
  · intro p hp
    obtain ⟨i0, i1⟩ := hinv
    have hroom : (a0.run ops).offset < (a0.run ops).capacity := by
      by_contra hfull
      rw [Arena.Alloc_full _ (by omega)] at hp
      cases hp
    have hcr : IsInt (a0.run ops).capacity := by rw [f2, hc0]; exact hcap
    have hor : IsInt (a0.run ops).offset := by
      obtain ⟨_, h3⟩ := hcr
      constructor <;> omega
    rw [Arena.Alloc_room _ hcr hor hroom] at hp
    injection hp with hp
    rw [f1, f3, hs0] at hp
    rw [f2, hc0] at hroom
    rw [slotAddress_fits a0.basePtr sz _ cap hb i0 hroom hcap.2 (by omega)] at hp
    have hlt : (a0.run ops).offset.toNat < cap.toNat := by omega
    have hmul := Nat.mul_lt_mul_of_pos_right hlt hsz
    have hrange : a0.basePtr ≤ p ∧ p < a0.basePtr + cap.toNat * sz ∧
        (p - a0.basePtr) % sz = 0 := by
      subst hp
      refine ⟨by omega, by omega, ?_⟩
      rw [Nat.add_sub_cancel_left]
      exact Nat.mul_mod_left _ _
    refine ⟨hrange, fun later => ?_⟩
    obtain ⟨g1, g2, g3, _⟩ := Arena.run_frame later (a0.run ops).Alloc.2
    obtain ⟨k1, k2, k3, _⟩ := Arena.Alloc_frame (a0.run ops)
    rw [hval _ p (by rw [g1, k1, f1]) (by rw [g2, k2, f2, hc0]) (by rw [g3, k3, f3, hs0]),
      decide_eq_true hrange]
  · intro q hq
    rw [hval _ q f1 (by rw [f2, hc0]) (by rw [f3, hs0])]
    congr 1
    apply decide_eq_false
    omega
  · intro q _ _ hmis
    rw [hval _ q f1 (by rw [f2, hc0]) (by rw [f3, hs0])]
    congr 1
    apply decide_eq_false
    tauto

/-- The demo arena after four allocations: the fifth handle is the fifth slot and
validates after a later `Reset`. -/
theorem issued_handles_validate_witness :
    NewArena 32 8 0xc000012000 10 = .ok ⟨0xc000012000, 10, 0, 32, 8⟩ ∧
      ((Arena.mk 0xc000012000 10 0 32 8).run (List.replicate 4 Arena.Op.alloc)).Alloc.1
        = .ok (0xc000012000 + 4 * 32) ∧
      ∀ later,
        (((Arena.mk 0xc000012000 10 0 32 8).run
          (List.replicate 4 Arena.Op.alloc)).Alloc.2.run later).Validate (0xc000012000 + 4 * 32)
          = .ok true :=
  ⟨by decide, by decide,
    ((issued_handles_validate 32 8 0xc000012000 10 ⟨0xc000012000, 10, 0, 32, 8⟩ (by decide)
      (by decide) (by decide) (by decide) (List.replicate 4 Arena.Op.alloc)).1
        (0xc000012000 + 4 * 32) (by decide)).2⟩

/-! ## Construction -/

/-- C7 (the code at the failing input): for the empty struct, of size 0 and alignment 1,
and capacity 1 the block has `1 * 0 + 1 - 1 = 0` bytes, and `&rawBytes[0]` panics; `NewArena`
neither returns an error nor an arena.  The capacity is positive and 0 is not. -/
theorem newArena_panics_for_empty_struct :
    NewArena 0 1 0xc000012000 1 = .panic .indexOutOfRange ∧
      NewArena 0 1 0xc000012000 0 = .error .capacityMustBePositive ∧
      NewArena 32 8 0xc000012000 1 = .ok ⟨0xc000012000, 1, 0, 32, 8⟩ := by
  refine ⟨by decide, by decide, by decide⟩

/-! ## Reinterpretation helpers -/

/-- C8: for every byte slice `b`, `StringToBytes(BytesToString(b))` has the data pointer
and the length of `b`, hence the same bytes, in every memory; nothing is copied. -/
theorem stringToBytes_bytesToString (mem : Memory) (b : SliceHeader) :
    (StringToBytes (BytesToString b)).Len = b.Len ∧
      (StringToBytes (BytesToString b)).Data = b.Data ∧
      (StringToBytes (BytesToString b)).bytes mem = b.bytes mem := by
  refine ⟨rfl, rfl, rfl⟩

/-! ## Invariant and frame -/

/-- C9: `0 ≤ offset ≤ capacity` holds for the arena that a successful `NewArena` returns,
every call (`Alloc`, `Reset`, `CurrentUsage`, `GetCapacity`, `Validate`) preserves it in
every state of that capacity, and so it holds after any sequence of calls. -/
theorem offset_in_bounds_invariant (sz al raw : Nat) (cap : Int) (a0 : Arena)
    (hcap : IsInt cap) (h : NewArena sz al raw cap = .ok a0) :
    a0.OffsetInBounds ∧
      (∀ (s : Arena) (op : Arena.Op), s.capacity = cap → s.OffsetInBounds →
        (s.step op).OffsetInBounds) ∧
      (∀ s : Arena, s.capacity = cap → s.OffsetInBounds →
        s.Alloc.2.OffsetInBounds ∧ s.Reset.OffsetInBounds) ∧
      ∀ ops : List Arena.Op, (a0.run ops).OffsetInBounds := by
  obtain ⟨hpos, _, hc0, hoff, _, _⟩ := NewArena_ok sz al raw cap a0 h
  have h0 : a0.OffsetInBounds := ⟨by omega, by omega⟩
  refine ⟨h0, ?_, ?_, ?_⟩
  · intro s op hs hinv
    exact step_offsetInBounds s op (by rw [hs]; exact hcap) hinv
  · intro s hs hinv
    exact ⟨step_offsetInBounds s .alloc (by rw [hs]; exact hcap) hinv,
      step_offsetInBounds s .reset (by rw [hs]; exact hcap) hinv⟩
  · intro ops
    exact run_offsetInBounds ops a0 (by rw [hc0]; exact hcap) h0

/-- The demo arena after eleven calls of `Alloc`, a `Reset` and three more. -/
theorem offset_in_bounds_invariant_witness :
    NewArena 32 8 0xc000012000 10 = .ok ⟨0xc000012000, 10, 0, 32, 8⟩ ∧
      ((Arena.mk 0xc000012000 10 0 32 8).run
        (List.replicate 11 Arena.Op.alloc ++ Arena.Op.reset ::
          List.replicate 3 Arena.Op.alloc)).OffsetInBounds :=
  ⟨by decide, (offset_in_bounds_invariant 32 8 0xc000012000 10 ⟨0xc000012000, 10, 0, 32, 8⟩
    (by decide) (by decide)).2.2.2 _⟩

/-- C10: `Alloc` and `Reset` assign no field but `offset`, `Reset` leaves the bytes of
every slot as they are, and in every state reached from a successful `NewArena` by any
sequence of calls `GetCapacity` returns the capacity passed to `NewArena`, with the base
address, element size and element alignment as constructed. -/
theorem fields_fixed_at_construction (sz al raw : Nat) (cap : Int) (a0 : Arena)
    (h : NewArena sz al raw cap = .ok a0) (ops : List Arena.Op) :
    (∀ s : Arena, s.Alloc.2.basePtr = s.basePtr ∧ s.Alloc.2.capacity = s.capacity ∧
        s.Alloc.2.elementSize = s.elementSize ∧ s.Alloc.2.elementAlign = s.elementAlign) ∧
      (∀ s : Arena, s.Reset.basePtr = s.basePtr ∧ s.Reset.capacity = s.capacity ∧
        s.Reset.elementSize = s.elementSize ∧ s.Reset.elementAlign = s.elementAlign) ∧
      (∀ (s : Arena) (mem : Memory) (i : Int), s.Reset.slotBytes mem i = s.slotBytes mem i) ∧
      (a0.run ops).GetCapacity = cap ∧
      (a0.run ops).basePtr = a0.basePtr ∧
      (a0.run ops).elementSize = sz ∧
      (a0.run ops).elementAlign = al := by
  obtain ⟨_, _, hc0, _, hs0, ha0⟩ := NewArena_ok sz al raw cap a0 h
  obtain ⟨f1, f2, f3, f4⟩ := Arena.run_frame ops a0
  refine ⟨Arena.Alloc_frame, fun s => ⟨rfl, rfl, rfl, rfl⟩, fun s mem i => rfl, ?_, f1, ?_, ?_⟩
  · show (a0.run ops).capacity = cap
    rw [f2, hc0]
  · rw [f3, hs0]
  · rw [f4, ha0]

/-- The demo arena after eleven calls of `Alloc` and a `Reset`. -/
theorem fields_fixed_at_construction_witness :
    NewArena 32 8 0xc000012000 10 = .ok ⟨0xc000012000, 10, 0, 32, 8⟩ ∧
      ((Arena.mk 0xc000012000 10 0 32 8).run
        (List.replicate 11 Arena.Op.alloc ++ [Arena.Op.reset])).GetCapacity = 10 :=
  ⟨by decide, (fields_fixed_at_construction 32 8 0xc000012000 10 ⟨0xc000012000, 10, 0, 32, 8⟩
    (by decide) (List.replicate 11 Arena.Op.alloc ++ [Arena.Op.reset])).2.2.2.1⟩

/-! ## Validate and the offset -/

/-- C11, as stated, fails in its second half.  For a zero-size element type of
alignment 8 the handle issued before a `Reset` does not validate after it, and the
address `base + 0 * element_size` of the free slot 0 does not validate; the same holds
for the `MyData` arena of capacity 2^62, whose end address wraps round to the base. -/
theorem validate_rejects_free_slot :
    ((Arena.mk 0xc000012000 10 0 0 8).Alloc
        = (.ok 0xc000012000, ⟨0xc000012000, 10, 1, 0, 8⟩) ∧
      (Arena.mk 0xc000012000 10 1 0 8).Reset.Validate 0xc000012000 = .ok false ∧
      ((0 : Int) ≤ 0 ∧ (0 : Int) < 10) ∧
      (Arena.mk 0xc000012000 10 0 0 8).Validate (0xc000012000 + 0 * 0) = .ok false) ∧
    (NewArena 32 8 0xc000012000 (2 ^ 62) = .ok ⟨0xc000012000, 2 ^ 62, 0, 32, 8⟩ ∧
      ((0 : Int) ≤ 0 ∧ (0 : Int) < 2 ^ 62) ∧
      (Arena.mk 0xc000012000 (2 ^ 62) 0 32 8).Validate (0xc000012000 + 0 * 32)
        = .ok false) := by
  refine ⟨⟨by decide, by decide, by decide, by decide⟩, by decide, by decide, by decide⟩

/-- C11 (amended): `Validate` does not read `offset`: two arenas that differ only in
`offset` give the same result for every pointer.  For an arena with `element_size > 0`
whose slot region ends below 2^64, a handle issued before a `Reset` validates true after
the `Reset`, and `base + i * element_size` validates true for every `i` with
`offset ≤ i < capacity`. -/
theorem validate_ignores_offset (a : Arena) (hr : a.InRange) (hinv : a.OffsetInBounds)
    (hsz : 0 < a.elementSize)
    (hfit : a.basePtr + a.capacity.toNat * a.elementSize < wordSize) :
    (∀ (c : Arena) (o : Int) (p : Nat), ({ c with offset := o } : Arena).Validate p
        = c.Validate p) ∧
      (∀ p, a.Alloc.1 = .ok p → a.Alloc.2.Reset.Validate p = .ok true) ∧
      (∀ i : Int, a.offset ≤ i → i < a.capacity →
        a.Validate (a.basePtr + i.toNat * a.elementSize) = .ok true) := by
  obtain ⟨hb, hc, ho, _, _⟩ := hr
  obtain ⟨h0, h1⟩ := hinv
  have hval : ∀ (s : Arena) (q : Nat), s.basePtr = a.basePtr → s.capacity = a.capacity →
      s.elementSize = a.elementSize →
      s.Validate q = .ok (decide (a.basePtr ≤ q ∧
        q < a.basePtr + a.capacity.toNat * a.elementSize ∧
        (q - a.basePtr) % a.elementSize = 0)) := by
    intro s q e1 e2 e3
    rw [Validate_eq, e1, e2, e3, stopAddress_fits _ _ _ (by omega) hfit]
  have hslot : ∀ (s : Arena) (n : Nat), s.basePtr = a.basePtr → s.capacity = a.capacity →
      s.elementSize = a.elementSize → (n : Int) < a.capacity →
      s.Validate (a.basePtr + n * a.elementSize) = .ok true := by
    intro s n e1 e2 e3 hn
    have hlt : n < a.capacity.toNat := by omega
    have hmul := Nat.mul_lt_mul_of_pos_right hlt hsz
    rw [hval s _ e1 e2 e3]
    congr 1
    apply decide_eq_true
    refine ⟨by omega, by omega, ?_⟩
    rw [Nat.add_sub_cancel_left]
    exact Nat.mul_mod_left _ _
  refine ⟨fun _ _ _ => rfl, ?_, ?_⟩
  · intro p hp
    have hroom : a.offset < a.capacity := by
      by_contra hfull
      rw [Arena.Alloc_full a (by omega)] at hp
      cases hp
    rw [Arena.Alloc_room a hc ho hroom] at hp ⊢
    injection hp with hp
    rw [slotAddress_fits a.basePtr a.elementSize a.offset a.capacity hb h0 hroom hc.2
      (by omega)] at hp
    subst hp
    exact hslot _ a.offset.toNat rfl rfl rfl (by omega)
  · intro i hi hic
    exact hslot a i.toNat rfl rfl rfl (by omega)

/-- The demo arena after three allocations: slot 7 is free and validates. -/
theorem validate_ignores_offset_witness :
    (Arena.mk 0xc000012000 10 3 32 8).InRange ∧
      (Arena.mk 0xc000012000 10 3 32 8).Validate (0xc000012000 + (7 : Int).toNat * 32)
        = .ok true :=
  ⟨by decide, (validate_ignores_offset ⟨0xc000012000, 10, 3, 32, 8⟩ (by decide) (by decide)
    (by decide) (by decide)).2.2 7 (by decide) (by decide)⟩

/-! ## Usage count -/

/-- C12: in every state reached from a successful `NewArena` by any sequence of calls,
`CurrentUsage` returns `offset`, and this is the number of successful calls of `Alloc`
since construction or since the latest `Reset`; failed calls are not counted. -/
theorem currentUsage_counts_successful_allocs (sz al raw : Nat) (cap : Int) (a0 : Arena)
    (hcap : IsInt cap) (h : NewArena sz al raw cap = .ok a0) (ops : List Arena.Op) :
    (a0.trace [] ops).1 = a0.run ops ∧
      (a0.run ops).CurrentUsage = (a0.run ops).offset ∧
      (a0.run ops).CurrentUsage = ((a0.trace [] ops).2.length : Int) := by
  obtain ⟨hpos, _, hc0, hoff, _, _⟩ := NewArena_ok sz al raw cap a0 h
  have hc : IsInt a0.capacity := by rw [hc0]; exact hcap
  have hinv : a0.OffsetInBounds := ⟨by omega, by omega⟩
  obtain ⟨t1, t2⟩ := trace_spec ops a0 [] hc hinv (by rw [hoff]; rfl)
  obtain ⟨i0, _⟩ := run_offsetInBounds ops a0 hc hinv
  refine ⟨t1, rfl, ?_⟩
  rw [t2, List.length_map, List.length_range]
  show (a0.run ops).offset = _
  omega

/-- The demo: eleven calls of `Alloc` (the last one fails), a `Reset`, three more. -/
theorem currentUsage_counts_successful_allocs_witness :
    NewArena 32 8 0xc000012000 10 = .ok ⟨0xc000012000, 10, 0, 32, 8⟩ ∧
      ((Arena.mk 0xc000012000 10 0 32 8).run
        (List.replicate 11 Arena.Op.alloc ++ Arena.Op.reset ::
          List.replicate 3 Arena.Op.alloc)).CurrentUsage
        = (((Arena.mk 0xc000012000 10 0 32 8).trace []
          (List.replicate 11 Arena.Op.alloc ++ Arena.Op.reset ::
            List.replicate 3 Arena.Op.alloc)).2.length : Int) :=
  ⟨by decide, (currentUsage_counts_successful_allocs 32 8 0xc000012000 10
    ⟨0xc000012000, 10, 0, 32, 8⟩ (by decide) (by decide) _).2.2⟩

/-! ## Alignment of the base -/

/-- C13: for every address `p` at which a block can start, so that `p + a - 1` is still
an address of the 64-bit address space (every `p` below 2^63 is such an address), and
every alignment `a = 2^k`, the base that `NewArena` computes is the least address `≥ p`
that is a multiple of `a`; in particular `base mod a = 0` and `0 ≤ base - p ≤ a - 1`. -/
theorem newArena_base_is_least_aligned (sz p k : Nat) (cap : Int) (a0 : Arena)
    (hk : k < 64) (hp : p + 2 ^ k - 1 < wordSize)
    (h : NewArena sz (2 ^ k) p cap = .ok a0) :
    a0.basePtr % 2 ^ k = 0 ∧ p ≤ a0.basePtr ∧ a0.basePtr - p ≤ 2 ^ k - 1 ∧
      ∀ m, p ≤ m → m % 2 ^ k = 0 → a0.basePtr ≤ m := by
  obtain ⟨hbase, _, _⟩ := NewArena_basePtr sz (2 ^ k) p cap a0 h
  rw [hbase, alignedBase_eq p k hk hp]
  exact roundUp_least p (2 ^ k) (Nat.two_pow_pos k)

/-- A `MyData` arena (alignment 8 = 2^3) on a block that starts at an odd address. -/
theorem newArena_base_is_least_aligned_witness :
    NewArena 32 (2 ^ 3) 0xc000012001 10 = .ok ⟨0xc000012008, 10, 0, 32, 8⟩ ∧
      (Arena.mk 0xc000012008 10 0 32 8).basePtr % 2 ^ 3 = 0 ∧
      0xc000012001 ≤ (Arena.mk 0xc000012008 10 0 32 8).basePtr :=
  ⟨by decide,
    (newArena_base_is_least_aligned 32 0xc000012001 3 10 ⟨0xc000012008, 10, 0, 32, 8⟩
      (by decide) (by decide) (by decide)).1,
    (newArena_base_is_least_aligned 32 0xc000012001 3 10 ⟨0xc000012008, 10, 0, 32, 8⟩
      (by decide) (by decide) (by decide)).2.1⟩

/-! ## The raw block -/

/-- When neither the byte count nor the block wraps round, the block has
`capacity * element_size + element_align - 1` bytes and contains the slot region. -/
theorem slotRegion_inside_block (sz p k : Nat) (cap : Int) (a0 : Arena) (hk : k < 64)
    (hcap : IsInt cap) (hfit : p + (cap.toNat * sz + 2 ^ k - 1) < wordSize)
    (h : NewArena sz (2 ^ k) p cap = .ok a0) :
    totalBytes sz (2 ^ k) cap = cap.toNat * sz + 2 ^ k - 1 ∧
      p ≤ a0.basePtr ∧
      a0.basePtr + cap.toNat * sz ≤ p + totalBytes sz (2 ^ k) cap := by
  obtain ⟨hpos, _, _, _, _, _⟩ := NewArena_ok sz (2 ^ k) p cap a0 h
  obtain ⟨hbase, _, _⟩ := NewArena_basePtr sz (2 ^ k) p cap a0 h
  have h2k : 0 < 2 ^ k := Nat.two_pow_pos k
  have hfit64 : p + (cap.toNat * sz + 2 ^ k - 1) < 2 ^ 64 := hfit
  have htot : totalBytes sz (2 ^ k) cap = cap.toNat * sz + 2 ^ k - 1 := by
    unfold totalBytes
    rw [intToUintptr_of_nonneg cap (by omega) hcap.2]
    unfold uintptrSub uintptrAdd uintptrMul wordSize
    generalize cap.toNat * sz = x at hfit64 ⊢
    omega
  have hp : p + 2 ^ k - 1 < wordSize := by
    show p + 2 ^ k - 1 < 2 ^ 64
    omega
  obtain ⟨_, r1, r2, _⟩ := roundUp_least p (2 ^ k) h2k
  rw [htot, hbase, alignedBase_eq p k hk hp]
  refine ⟨rfl, r1, ?_⟩
  omega

/-- C14 (the code at the failing input): for `MyData` (32 bytes, alignment 8) and
capacity 2^62 the byte count `capacity * 32 + 8 - 1` wraps round to 7, `NewArena`
succeeds on a block of 7 bytes, and the first `Alloc` hands out the base, a slot of 32
bytes that does not end inside the block. -/
theorem newArena_block_smaller_than_slot :
    totalBytes 32 8 (2 ^ 62) = 7 ∧
      NewArena 32 8 0xc000012000 (2 ^ 62) = .ok ⟨0xc000012000, 2 ^ 62, 0, 32, 8⟩ ∧
      (Arena.mk 0xc000012000 (2 ^ 62) 0 32 8).Alloc.1 = .ok 0xc000012000 ∧
      ¬ (0xc000012000 + 32 ≤ 0xc000012000 + totalBytes 32 8 (2 ^ 62)) := by
  refine ⟨by decide, by decide, by decide, by decide⟩

/-! ## Calls that cannot fail -/

/-- C15: in every arena state and for every pointer, `Validate` returns a boolean and
never panics; with `element_size = 0` it returns false before the remainder is
evaluated.  `Reset`, `CurrentUsage` and `GetCapacity` are total: they set `offset` to 0,
return `offset` and return `capacity`. -/
theorem arena_queries_never_fail (a : Arena) (p : Nat) :
    (∃ b, a.Validate p = .ok b) ∧
      (∀ (base : Nat) (cap off : Int) (al : Nat),
        (Arena.mk base cap off 0 al).Validate p = .ok false) ∧
      a.Reset = { a with offset := 0 } ∧
      a.CurrentUsage = a.offset ∧
      a.GetCapacity = a.capacity := by
  refine ⟨⟨_, Validate_eq a p⟩, ?_, rfl, rfl, rfl⟩
  intro base cap off al
  rw [Validate_eq]
  congr 1
  apply decide_eq_false
  rintro ⟨h1, h2, _⟩
  unfold uintptrAdd uintptrMul at h2
  simp only [Nat.mul_zero, Nat.zero_mod, Nat.add_zero] at h1 h2
  have := Nat.mod_le base wordSize
  omega

/-! ## String to bytes and back -/

/-- C17: for every string `s`, `BytesToString(StringToBytes(s))` is `s`, and
`StringToBytes(s)` has length and capacity `len(s)`, the data pointer of `s` and the
bytes of `s`, in every memory. -/
theorem bytesToString_stringToBytes (mem : Memory) (s : StringHeader) :
    BytesToString (StringToBytes s) = s ∧
      (StringToBytes s).Len = s.Len ∧
      (StringToBytes s).Cap = s.Len ∧
      (StringToBytes s).Data = s.Data ∧
      (StringToBytes s).bytes mem = s.bytes mem := by
  refine ⟨rfl, rfl, rfl, rfl, rfl⟩

/-! ## Disjoint slots -/

/-- C18 (the code at the failing input): in the `MyData` arena of capacity 2^62 that
`NewArena` returns, the first call of `Alloc` and call number 2^59 + 1, with no `Reset`
between them, both succeed and both return the base address, so the two slots are the
same 32 bytes. -/
theorem issued_slots_overlap_after_wrap :
    NewArena 32 8 0xc000012000 (2 ^ 62) = .ok ⟨0xc000012000, 2 ^ 62, 0, 32, 8⟩ ∧
    ((Arena.mk 0xc000012000 (2 ^ 62) 0 32 8).allocTimes 0).Alloc.1 = .ok 0xc000012000 ∧
      ((Arena.mk 0xc000012000 (2 ^ 62) 0 32 8).allocTimes (2 ^ 59)).Alloc.1
        = .ok 0xc000012000 ∧
      ¬ (0xc000012000 + 32 ≤ 0xc000012000 ∨ 0xc000012000 + 32 ≤ 0xc000012000) := by
  have hc : IsInt (2 ^ 62 : Int) := by unfold IsInt; norm_num
  refine ⟨by decide, by decide, ?_, by decide⟩
  rw [Arena.allocTimes_room _ _ hc (by norm_num) (by norm_num)]
  rw [Arena.Alloc_room _ hc (by unfold IsInt; norm_num) (by norm_num)]
  simp only
  rw [slotAddress_eq _ _ _ (by norm_num) (by norm_num)]
  simp [wordSize]

/-- Without wrap-around the slots are disjoint: for every element size and a slot region
that does not run past the end of the address space,
`base + capacity * element_size ≤ 2^64`, the handles that
successful calls of `Alloc` returned since construction or the latest `Reset` are
pairwise disjoint slots, each slot ending where or before the next one starts, and every
slot `[p, p + element_size)` lies inside `[base, base + capacity * element_size)`. -/
theorem issued_slots_disjoint (sz al raw : Nat) (cap : Int) (a0 : Arena)
    (hcap : IsInt cap) (h : NewArena sz al raw cap = .ok a0)
    (hfit : a0.basePtr + cap.toNat * sz ≤ wordSize) (ops : List Arena.Op) :
    List.Pairwise (fun p q => p + sz ≤ q) (a0.trace [] ops).2 ∧
      ∀ p ∈ (a0.trace [] ops).2,
        a0.basePtr ≤ p ∧ p + sz ≤ a0.basePtr + cap.toNat * sz := by
  obtain ⟨hpos, hb, hc0, hoff, hs0, _⟩ := NewArena_ok sz al raw cap a0 h
  have hc : IsInt a0.capacity := by rw [hc0]; exact hcap
  have hinv : a0.OffsetInBounds := ⟨by omega, by omega⟩
  obtain ⟨_, t2⟩ := trace_spec ops a0 [] hc hinv (by rw [hoff]; rfl)
  obtain ⟨i0, i1⟩ := run_offsetInBounds ops a0 hc hinv
  rw [(Arena.run_frame ops a0).2.1, hc0] at i1
  have hslot : ∀ i ∈ List.range (a0.run ops).offset.toNat,
      a0.slotPtr i = a0.basePtr + i * sz := by
    intro i hi
    rw [List.mem_range] at hi
    unfold Arena.slotPtr
    rw [hs0, slotAddress_fits a0.basePtr sz (i : Int) cap hb (by omega) (by omega) hcap.2 hfit]
    simp
  rw [t2, List.map_congr_left hslot]
  constructor
  · rw [List.pairwise_map]
    apply List.Pairwise.imp ?_ (List.pairwise_lt_range _)
    intro i j hij
    have := Nat.mul_le_mul_right sz (Nat.succ_le_of_lt hij)
    rw [Nat.succ_mul] at this
    omega
  · intro p hp
    rw [List.mem_map] at hp
    obtain ⟨i, hi, rfl⟩ := hp
    rw [List.mem_range] at hi
    have hlt : i + 1 ≤ cap.toNat := by omega
    have := Nat.mul_le_mul_right sz hlt
    rw [Nat.succ_mul] at this
    omega

/-- The demo arena: its first three slots, issued in order. -/
theorem issued_slots_disjoint_witness :
    NewArena 32 8 0xc000012000 10 = .ok ⟨0xc000012000, 10, 0, 32, 8⟩ ∧
      ((Arena.mk 0xc000012000 10 0 32 8).trace [] (List.replicate 3 Arena.Op.alloc)).2
        = [0xc000012000, 0xc000012020, 0xc000012040] ∧
      List.Pairwise (fun p q => p + 32 ≤ q)
        ((Arena.mk 0xc000012000 10 0 32 8).trace [] (List.replicate 3 Arena.Op.alloc)).2 :=
  ⟨by decide, by decide,
    (issued_slots_disjoint 32 8 0xc000012000 10 ⟨0xc000012000, 10, 0, 32, 8⟩ (by decide)
      (by decide) (by decide) (List.replicate 3 Arena.Op.alloc)).1⟩

end ArenaLesson

/-! # Naive and pooled processors: theorems -/

namespace GcHiddenCost

/-- Writing the first `n` bytes of a slice of length at least `n` stays in range and
keeps length and capacity. -/
theorem foldlM_set_ok (g : Nat → UInt8) (n : Nat) (buf : ByteSlice) (h : n ≤ buf.len) :
    ∃ w, (List.range n).foldlM (fun b i => b.set i (g i)) buf = some w ∧
      w.len = buf.len ∧ w.cap = buf.cap := by
  induction n with
  | zero => exact ⟨buf, rfl, rfl, rfl⟩
  | succ m ih =>
    obtain ⟨w, hw, hlen, hcap⟩ := ih (by omega)
    refine ⟨{ w with array := w.array.set m (g m) }, ?_, hlen, ?_⟩
    · rw [List.range_succ, List.foldlM_append, hw]
      have hm : m < w.len := by omega
      simp [ByteSlice.set, hm]
    · unfold ByteSlice.cap at hcap ⊢
      simpa using hcap

theorem dummyWrite_ok (buf : ByteSlice) (size : Int) (h : size.toNat ≤ buf.len) :
    ∃ w, dummyWrite buf size = some w ∧ w.len = buf.len ∧ w.cap = buf.cap :=
  foldlM_set_ok (fun i => UInt8.ofNat (i % 256)) size.toNat buf h

theorem writeAndPut_ok (buf : ByteSlice) (size : Int) (h : size.toNat ≤ buf.len) :
    ∃ put, PooledProcessor.writeAndPut buf size
        = (.ok ("Pooled: Processed " ++ toString size ++ " bytes"), some put) ∧
      put.len = 0 ∧ put.cap = buf.cap := by
  obtain ⟨w, hw, _, hcap⟩ := dummyWrite_ok buf size h
  refine ⟨{ w with len := 0 }, ?_, rfl, hcap⟩
  unfold PooledProcessor.writeAndPut
  rw [hw]
  simp [ByteSlice.upTo]

/-- C16, as stated, fails: for `size = 2^62`, which is greater than 0, `make([]byte, size)`
panics with "len out of range", so `NaiveProcessor.Process` returns nothing, and neither
does `PooledProcessor.Process` on the buffer of capacity 4096 that the pool makes. -/
theorem processors_panic_beyond_maxAlloc :
    (0 : Int) < 2 ^ 62 ∧
      NaiveProcessor.Process (2 ^ 62) = .panic .lenOutOfRange ∧
      PooledProcessor.Process PooledProcessor.New (2 ^ 62) = (.panic .lenOutOfRange, none) := by
  refine ⟨by decide, by decide, ?_⟩
  have hcap : ((ByteSlice.makeEmpty 4096).cap : Int) < 2 ^ 62 := by
    show ((List.replicate 4096 (0 : UInt8)).length : Int) < 2 ^ 62
    rw [List.length_replicate]
    norm_num
  have hmake : ByteSlice.make (2 ^ 62) = none := by decide
  unfold PooledProcessor.New PooledProcessor.Process
  simp only [if_pos hcap, hmake]

/-- C16 (amended): for every `size` with `0 < size ≤ maxAlloc` (2^48, the largest length
that `make` accepts) and every byte slice that the pool hands back, whatever its length
and capacity, `NaiveProcessor.Process` and `PooledProcessor.Process` return a nil error
without an index or slice bound out of range, with the messages
"Naive: Processed <size> bytes" and "Pooled: Processed <size> bytes"; the two messages
agree after the word before the colon, and the pooled processor puts an empty slice
back. -/
theorem processors_return_messages (size : Int) (buf : ByteSlice) (hsize : 0 < size)
    (hmax : size ≤ (ArenaLesson.maxAlloc : Int)) :
    NaiveProcessor.Process size = .ok ("Naive: Processed " ++ toString size ++ " bytes") ∧
      (PooledProcessor.Process (.bytes buf) size).1
        = .ok ("Pooled: Processed " ++ toString size ++ " bytes") ∧
      (∃ put, (PooledProcessor.Process (.bytes buf) size).2 = some put ∧ put.len = 0) ∧
      ∃ rest, NaiveProcessor.Process size = .ok ("Naive: " ++ rest) ∧
        (PooledProcessor.Process (.bytes buf) size).1 = .ok ("Pooled: " ++ rest) := by
  have hmake : ByteSlice.make size
      = some { array := List.replicate size.toNat 0, len := size.toNat } := by
    unfold ByteSlice.make
    rw [if_neg (by omega)]
  have hnaive : NaiveProcessor.Process size
      = .ok ("Naive: Processed " ++ toString size ++ " bytes") := by
    obtain ⟨w, hw, _, _⟩ := dummyWrite_ok
      { array := List.replicate size.toNat 0, len := size.toNat } size (le_refl _)
    unfold NaiveProcessor.Process
    rw [hmake]
    simp only [hw]
  have hpooled : ∃ put, PooledProcessor.Process (.bytes buf) size
      = (.ok ("Pooled: Processed " ++ toString size ++ " bytes"), some put) ∧
      put.len = 0 := by
    unfold PooledProcessor.Process
    by_cases hcap : (buf.cap : Int) < size
    · obtain ⟨put, hput, hlen, _⟩ := writeAndPut_ok
        { array := List.replicate size.toNat 0, len := size.toNat } size (le_refl _)
      refine ⟨put, ?_, hlen⟩
      simp only [if_pos hcap, hmake, hput]
    · have hup : buf.upTo size = some { buf with len := size.toNat } := by
        unfold ByteSlice.upTo
        rw [if_pos ⟨by omega, by omega⟩]
      obtain ⟨put, hput, hlen, _⟩ := writeAndPut_ok { buf with len := size.toNat } size
        (le_refl _)
      refine ⟨put, ?_, hlen⟩
      simp only [if_neg hcap, hup, hput]
  obtain ⟨put, hp, hlen⟩ := hpooled
  refine ⟨hnaive, by rw [hp], ⟨put, by rw [hp], hlen⟩,
    "Processed " ++ toString size ++ " bytes", ?_, ?_⟩
  · rw [hnaive]
    rfl
  · rw [hp]
    rfl

/-- The request of the tests, `size=1024`, on a fresh pool buffer of capacity 4096. -/
theorem processors_return_messages_witness :
    NaiveProcessor.Process 1024 = .ok "Naive: Processed 1024 bytes" ∧
      (PooledProcessor.Process PooledProcessor.New 1024).1
        = .ok "Pooled: Processed 1024 bytes" :=
  ⟨(processors_return_messages 1024 (ByteSlice.makeEmpty 4096) (by decide) (by decide)).1,
    (processors_return_messages 1024 (ByteSlice.makeEmpty 4096) (by decide) (by decide)).2.1⟩

/-! ## The request handler: theorems -/

theorem parseDigits_eq (ds : List Char) (n : Nat) :
    parseDigits ds n
      = if ∀ c ∈ ds, c.isDigit = true then
          some (ds.foldl (fun n c => n * 10 + (c.toNat - 48)) n)
        else none := by
  induction ds generalizing n with
  | nil => simp [parseDigits]
  | cons c cs ih =>
    unfold parseDigits
    by_cases hc : c.isDigit = true
    · rw [if_pos hc, ih]
      simp [hc]
    · rw [if_neg hc]
      simp [hc]

/-- `Atoi` succeeds exactly on the decimal integers that fit a 64-bit `int`, and then
returns their value. -/
theorem Atoi_eq (s : String) :
    Atoi s = if IsDecimalInteger s ∧ ArenaLesson.IsInt (decimalValue s) then
        some (decimalValue s) else none := by
  unfold Atoi IsDecimalInteger decimalValue unsignedPart ArenaLesson.IsInt
  rcases s with ⟨_ | ⟨c, cs⟩⟩
  · simp [String.toList]
  · simp only [String.toList, List.head?_cons, Option.some.injEq]
    by_cases hd : (if c = '-' ∨ c = '+' then cs else c :: cs) = []
    · simp [hd]
    · rw [if_neg hd, parseDigits_eq]
      by_cases hall : ∀ x ∈ (if c = '-' ∨ c = '+' then cs else c :: cs), x.isDigit = true
      · simp only [if_pos hall, digitsValue]
        generalize (if c = '-' then
            -((List.foldl (fun n c => n * 10 + (c.toNat - 48)) 0
              (if c = '-' ∨ c = '+' then cs else c :: cs) : Nat) : Int)
          else ((List.foldl (fun n c => n * 10 + (c.toNat - 48)) 0
              (if c = '-' ∨ c = '+' then cs else c :: cs) : Nat) : Int)) = v
        by_cases hr : v < -(2 ^ 63) ∨ 2 ^ 63 ≤ v
        · rw [if_pos hr, if_neg (by rintro ⟨_, h1, h2⟩; omega)]
        · rw [if_neg hr, if_pos ⟨⟨hd, hall⟩, by omega, by omega⟩]
      · simp only [if_neg hall]
        rw [if_neg]
        rintro ⟨⟨_, h⟩, _⟩
        exact hall h

/-- C19, as stated, fails: `size=9223372036854775808` is present, is a decimal integer
and is greater than 0, yet the handler answers 400, because `strconv.Atoi` reports a
range error for a value that does not fit `int`. -/
theorem handler_rejects_decimal_integer_beyond_int :
    (handleProcessWithStats NaiveProcessor.Process
        ⟨[("size", ["9223372036854775808"])]⟩).response.status = some 400 ∧
      Values.Get ⟨[("size", ["9223372036854775808"])]⟩ "size" = "9223372036854775808" ∧
      IsDecimalInteger "9223372036854775808" ∧
      ¬ (decimalValue "9223372036854775808" ≤ 0) := by
  refine ⟨by decide, by decide, by decide, by decide⟩

/-- C19 (amended): the handler answers 400 if and only if the `size` parameter is
missing or empty, is not a decimal integer, does not fit a 64-bit `int`, or is `≤ 0`;
`Process` is only called with `size > 0`; and the answer is 500 if and only if `Process`
was called and returned an error. -/
theorem handler_bad_request_iff (process : Int → Result) (query : Values) :
    ((handleProcessWithStats process query).response.status = some 400 ↔
        query.Get "size" = "" ∨ ¬ IsDecimalInteger (query.Get "size") ∨
        ¬ ArenaLesson.IsInt (decimalValue (query.Get "size")) ∨
        decimalValue (query.Get "size") ≤ 0) ∧
      (∀ v ∈ (handleProcessWithStats process query).processCalls, 0 < v) ∧
      ((handleProcessWithStats process query).response.status = some 500 ↔
        ∃ v err, (handleProcessWithStats process query).processCalls = [v] ∧
          process v = .error err) := by
  unfold handleProcessWithStats
  simp only
  generalize query.Get "size" = sizeStr
  by_cases h1 : sizeStr = ""
  · simp [h1, Response.status]
  · rw [Atoi_eq]
    by_cases h2 : IsDecimalInteger sizeStr ∧ ArenaLesson.IsInt (decimalValue sizeStr)
    · by_cases h3 : decimalValue sizeStr ≤ 0
      · simp [h1, h2, h3, Response.status]
      · have h3' : 0 < decimalValue sizeStr := by omega
        cases hp : process (decimalValue sizeStr) <;>
          simp [h1, h2, h3, h3', hp, Response.status]
    · have h2' : ¬ IsDecimalInteger sizeStr ∨ ¬ ArenaLesson.IsInt (decimalValue sizeStr) := by
        by_contra hcon
        push_neg at hcon
        exact h2 hcon
      rcases h2' with h2' | h2' <;> simp [h1, h2, h2', Response.status]

/-- A request with `size=16` and a request without `size`. -/
theorem handler_bad_request_iff_witness :
    (handleProcessWithStats NaiveProcessor.Process ⟨[("size", ["16"])]⟩).processCalls
        = [16] ∧
      (handleProcessWithStats NaiveProcessor.Process ⟨[]⟩).response.status = some 400 ∧
      ∀ v ∈ (handleProcessWithStats NaiveProcessor.Process
        ⟨[("size", ["16"])]⟩).processCalls, 0 < v :=
  ⟨by decide, by decide,
    (handler_bad_request_iff NaiveProcessor.Process ⟨[("size", ["16"])]⟩).2.1⟩

end GcHiddenCost

/-! # Buffer pool handlers: theorems -/

namespace SyncPoolLesson

theorem bytesOfASCII_append (s t : String) :
    bytesOfASCII (s ++ t) = bytesOfASCII s ++ bytesOfASCII t := by
  unfold bytesOfASCII
  rw [String.toList, String.data_append, List.map_append]
  rfl

/-- The text appended by a handler is " [Processed by REQ-n]" with `n` taken from the
clock. -/
theorem processedBy_eq (now : Int) :
    processedBy now
      = bytesOfASCII " [Processed by REQ-" ++ bytesOfASCII (toString (Int.tmod now 100000))
        ++ bytesOfASCII "]" := by
  unfold processedBy requestID
  rw [bytesOfASCII_append, ← List.append_assoc, ← bytesOfASCII_append]
  rfl

/-- C20: for every request body and every prior content of the buffer taken from the
pool, the buffer that `fixedHandler` puts back is empty (also when reading the body
fails), whereas the buffer that `buggyHandler` puts back holds the prior content, then
the body, then " [Processed by REQ-n]", so it is strictly longer than it was. -/
theorem fixed_resets_buggy_accumulates (now : Int) (body : List UInt8) (buf : Buffer) :
    (fixedHandler now (some body) buf).put = { contents := [] } ∧
      (fixedHandler now (some body) buf).put.Len = 0 ∧
      (fixedHandler now none buf).put.Len = 0 ∧
      (buggyHandler now (some body) buf).put.contents
        = buf.contents ++ body ++
          (bytesOfASCII " [Processed by REQ-" ++ bytesOfASCII (toString (Int.tmod now 100000))
            ++ bytesOfASCII "]") ∧
      buf.Len < (buggyHandler now (some body) buf).put.Len := by
  have hput : (buggyHandler now (some body) buf).put.contents
      = buf.contents ++ body ++ processedBy now := rfl
  refine ⟨rfl, rfl, rfl, ?_, ?_⟩
  · rw [hput, processedBy_eq]
  · unfold Buffer.Len
    rw [hput, processedBy_eq]
    simp only [List.length_append]
    have : 0 < (bytesOfASCII " [Processed by REQ-").length := by decide
    omega

/-! ## The shared pool: theorems -/

/-- On an empty buffer `fixedHandler` answers with the body and the clock only. -/
theorem fixedHandler_on_empty_buffer (now : Int) (b : List UInt8) (buf : Buffer)
    (hbuf : buf.contents = []) :
    (fixedHandler now (some b) buf).body = claimedFixedResponse now b ∧
      (fixedHandler now (some b) buf).status = 200 := by
  refine ⟨?_, rfl⟩
  show bytesOfASCII "Fixed response (len: "
      ++ bytesOfASCII (toString (buf.contents ++ b ++ processedBy now).length)
      ++ bytesOfASCII "): " ++ (buf.contents ++ b ++ processedBy now) = _
  unfold claimedFixedResponse
  rw [hbuf, processedBy_eq]
  simp only [List.nil_append, List.length_append, List.append_assoc]

/-- What `Get` hands back is a new, empty buffer or one of the pooled buffers. -/
theorem Pool.Get_mem (pool : Pool) (pick : Option Nat) :
    ((pool.Get pick).1 = bufferPoolNew ∨ (pool.Get pick).1 ∈ pool.items) ∧
      ∀ buf ∈ (pool.Get pick).2.items, buf ∈ pool.items := by
  cases pick with
  | none => exact ⟨Or.inl rfl, fun _ h => h⟩
  | some i =>
    cases hi : pool.items[i]? with
    | none => simp [Pool.Get, hi]
    | some buf =>
      simp only [Pool.Get, hi]
      exact ⟨Or.inr (List.getElem?_mem hi), fun b hb => List.mem_of_mem_eraseIdx hb⟩

/-- A pool that only `/fixed` requests have used holds empty buffers only. -/
theorem serveAll_fixed_clean (rs : List Request) (pool : Pool)
    (hrs : ∀ r ∈ rs, r.route = Route.fixed)
    (hpool : ∀ buf ∈ pool.items, buf.contents = []) :
    ∀ buf ∈ (serveAll pool rs).items, buf.contents = [] := by
  induction rs generalizing pool with
  | nil => exact hpool
  | cons r rest ih =>
    apply ih (serve pool r).2 (fun q hq => hrs q (List.mem_cons_of_mem _ hq))
    intro buf hbuf
    have hroute := hrs r (List.mem_cons_self _ _)
    unfold serve Pool.Put at hbuf
    simp only [hroute, List.mem_cons] at hbuf
    rcases hbuf with h | h
    · rw [h]
      cases r.body <;> rfl
    · exact hpool buf ((Pool.Get_mem pool r.pick).2 buf h)

/-- After `/fixed` requests only, the next `/fixed` request is answered with the body
and the clock only, whichever buffer the pool hands out. -/
theorem fixed_after_fixed_only (rs : List Request) (now : Int) (b : List UInt8)
    (pick : Option Nat) (hrs : ∀ r ∈ rs, r.route = Route.fixed) :
    (serve (serveAll { items := [] } rs)
      { route := .fixed, now := now, body := some b, pick := pick }).1.body
      = claimedFixedResponse now b := by
  have hclean := serveAll_fixed_clean rs { items := [] } hrs (fun _ h => by cases h)
  have hgot : ((serveAll { items := [] } rs).Get pick).1.contents = [] := by
    rcases (Pool.Get_mem (serveAll { items := [] } rs) pick).1 with h | h
    · rw [h]; rfl
    · exact hclean _ h
  exact (fixedHandler_on_empty_buffer now b _ hgot).1

/-- C21 (the code at the failing input): a `/buggy` request with body "A" leaves its
buffer, holding "A [Processed by REQ-1]", in the shared pool; a `/fixed` request with
body "B" that is handed this buffer writes after the old content and answers
"Fixed response (len: 44): A [Processed by REQ-1]B [Processed by REQ-2]", not the
response "Fixed response (len: 22): B [Processed by REQ-2]" that depends on the body
and the clock only. -/
theorem fixedHandler_leaks_buggy_content :
    serveAll { items := [] }
        [{ route := .buggy, now := 1, body := some (bytesOfASCII "A"), pick := none }]
      = { items := [{ contents := bytesOfASCII "A [Processed by REQ-1]" }] } ∧
    (serve { items := [{ contents := bytesOfASCII "A [Processed by REQ-1]" }] }
        { route := .fixed, now := 2, body := some (bytesOfASCII "B"), pick := some 0 }).1.body
      = bytesOfASCII "Fixed response (len: 44): A [Processed by REQ-1]B [Processed by REQ-2]" ∧
    claimedFixedResponse 2 (bytesOfASCII "B")
      = bytesOfASCII "Fixed response (len: 22): B [Processed by REQ-2]" ∧
    (serve { items := [{ contents := bytesOfASCII "A [Processed by REQ-1]" }] }
        { route := .fixed, now := 2, body := some (bytesOfASCII "B"), pick := some 0 }).1.body
      ≠ claimedFixedResponse 2 (bytesOfASCII "B") := by
  refine ⟨by decide, by decide, by decide, by decide⟩

end SyncPoolLesson
